import Mathlib

/-!
# monorepo-diff-buildkite-plugin: step resolution and pipeline generation

A shallow embedding of `plugin/pipeline.go`.

Conventions of the embedding.

* A Go `string` and a Go `[]byte` are a Lean `String`; the library functions of
  package `strings` that the source calls work on the list of characters.
* A Go `error` is an `Option String`: `none` is `nil`, `some msg` is an error
  whose text is `msg`.
* A Go slice that the source may return as `nil` is an `Option (List _)`:
  `none` is the `nil` slice, `some []` is an empty slice that is not `nil`.
* A Go function with two results returns a pair.
* The collaborators that are not part of `pipeline.go` are parameters of the
  functions that call them: `glob` stands for `doublestar.Match`,
  `executeCommand` for the process runner and `marshal` for `yaml.Marshal`.
-/

set_option autoImplicit false

namespace MonorepoDiff

/-! ## Data model -/

/-- Modelled from the spec: the `Build` type is declared in `plugin.go`, which is
not among the source files.  The fields are those of the struct literals of
`plugin_test.go`; a map is the multiset of its entries, so that equality of two
values is `reflect.DeepEqual`. -/
structure Build where
  Message : String := ""
  Branch : String := ""
  Commit : String := ""
  Env : Option (Multiset (String × String)) := none
deriving DecidableEq

/-- Modelled from the spec: the `Agent` type is declared in `plugin.go`, which is
not among the source files. -/
structure Agent where
  Queue : String := ""
deriving DecidableEq

/-- Modelled from the spec: the `Step` type is declared in `plugin.go`, which is
not among the source files.  A flat record of optional fields; two steps are equal
iff every field is equal. -/
structure Step where
  Trigger : String := ""
  Label : String := ""
  Build : Build := {}
  Command : String := ""
  Agents : Agent := {}
  Artifacts : Option (List String) := none
  Async : Bool := false
  Env : Option (Multiset (String × String)) := none
deriving DecidableEq

/-- Modelled from the spec: the `WatchConfig` type is declared in `plugin.go`,
which is not among the source files: the path patterns of a rule and its step. -/
structure WatchConfig where
  Paths : List String
  Step : Step
deriving DecidableEq

/-- Modelled from the spec: the `HookConfig` type is declared in `plugin.go`,
which is not among the source files. -/
structure HookConfig where
  Command : String
deriving DecidableEq

/-- Modelled from the spec: the `Plugin` type is declared in `plugin.go`, which is
not among the source files. -/
structure Plugin where
  Diff : String := ""
  Wait : Bool := false
  LogLevel : String := ""
  Interpolation : Bool := false
  Hooks : List HookConfig := []
  Watch : List WatchConfig := []
  Env : Option (Multiset (String × String)) := none

/-- The outcome of running a Go function: it returns, or the run-time system
panics (an index out of range). -/
inductive Outcome (α : Type) where
  | panics : Outcome α
  | returns : α → Outcome α
deriving DecidableEq

/-- The type of `doublestar.Match`: pattern, name, and the two results. -/
abbrev GlobMatcher := String → String → Bool × Option String

/-- The type of `executeCommand`: program, arguments, and the two results. -/
abbrev CommandRunner := String → List String → String × Option String

/-! ## Package `strings` -/

/-- The call `strings.Contains(s, substr)`. -/
def stringsContains (s substr : String) : Bool :=
  decide (substr.data <:+: s.data)

/-- The call `strings.HasPrefix(s, p)`. -/
def stringsHasPrefix (s p : String) : Bool :=
  p.data.isPrefixOf s.data

/-- The pieces of `s` between the occurrences of the character `sep`: the call
`strings.Split(s, sep)` for a separator of one character.  There is always at
least one piece. -/
def splitOnChar (sep : Char) : List Char → List (List Char)
  | [] => [[]]
  | c :: cs =>
    if c = sep then [] :: splitOnChar sep cs
    else
      match splitOnChar sep cs with
      | [] => [[c]]
      | w :: ws => (c :: w) :: ws

/-- The call `strings.Split(s, sep)` for a separator of one character. -/
def stringsSplit (s : String) (sep : Char) : List String :=
  (splitOnChar sep s.data).map String.mk

/-- The call `strings.Join(elems, sep)`. -/
def stringsJoin (elems : List String) (sep : String) : String :=
  match elems with
  | [] => ""
  | a :: rest =>
    match rest with
    | [] => a
    | _ :: _ => a ++ sep ++ stringsJoin rest sep

/-- The predicate `unicode.IsSpace`: the white space characters of Unicode. -/
def unicodeIsSpace (c : Char) : Bool :=
  let n := c.toNat
  n = 0x09 || n = 0x0A || n = 0x0B || n = 0x0C || n = 0x0D || n = 0x20
    || n = 0x85 || n = 0xA0 || n = 0x1680 || (0x2000 ≤ n && n ≤ 0x200A)
    || n = 0x2028 || n = 0x2029 || n = 0x202F || n = 0x205F || n = 0x3000

/-- The call `strings.TrimSpace(s)`: `s` without its leading and trailing white
space. -/
def stringsTrimSpace (s : String) : String :=
  String.mk ((s.data.dropWhile unicodeIsSpace).rdropWhile unicodeIsSpace)

/-- The loop of `strings.FieldsFunc`: `spans` are the fields recorded so far and
`start` is the field being read, `none` when the loop is between two fields. -/
def fieldsLoop (f : Char → Bool) (spans : List (List Char)) (start : Option (List Char)) :
    List Char → List (List Char)
  | [] =>
    match start with
    | some w => spans ++ [w]
    | none => spans
  | c :: cs =>
    if f c then
      match start with
      | some w => fieldsLoop f (spans ++ [w]) none cs
      | none => fieldsLoop f spans none cs
    else
      match start with
      | some w => fieldsLoop f spans (some (w ++ [c])) cs
      | none => fieldsLoop f spans (some [c]) cs

/-- The call `strings.FieldsFunc(s, f)`: the maximal runs of characters of `s`
that do not satisfy `f`. -/
def stringsFieldsFunc (s : String) (f : Char → Bool) : List String :=
  (fieldsLoop f [] none s.data).map String.mk

/-! ## A model of the glob library

`doublestar.Match` is a third-party function.  The theorems that take a matcher
`glob` hold for an arbitrary one.  The concrete instances, and the theorems that
name `globModel`, use the following model of it, which covers literal characters, `?`, `*`, `**`, the separator `/` and
character classes listing their members; a malformed pattern, one with a
character class that is not closed, fails on every name. -/

/-- The items of one pattern segment. -/
inductive GlobToken where
  | lit (c : Char)
  | any
  | star
  | cls (members : List Char)
  | bad
deriving DecidableEq

/-- Reads one pattern segment; the first argument holds the members of the class
being read, if any.  A class that is never closed gives the item `bad`. -/
def tokenize : Option (List Char) → List Char → List GlobToken
  | none, [] => []
  | some _, [] => [GlobToken.bad]
  | none, c :: cs =>
    if c = '[' then tokenize (some []) cs
    else if c = '*' then GlobToken.star :: tokenize none cs
    else if c = '?' then GlobToken.any :: tokenize none cs
    else GlobToken.lit c :: tokenize none cs
  | some m, c :: cs =>
    if c = ']' then GlobToken.cls m :: tokenize none cs
    else tokenize (some (m ++ [c])) cs

/-- Tries the continuation `k` on `n` and then on each shorter suffix of `n`,
until one matches or fails. -/
def starLoop (k : List Char → Bool × Option String) : List Char → Bool × Option String
  | [] => k []
  | d :: n =>
    match k (d :: n) with
    | (_, some err) => (false, some err)
    | (true, none) => (true, none)
    | (false, none) => starLoop k n

/-- Matches the items of one pattern segment against one segment of the name. -/
def matchTokens : List GlobToken → List Char → Bool × Option String
  | [] => fun n => (n.isEmpty, none)
  | GlobToken.bad :: _ => fun _ => (false, some "syntax error in pattern")
  | GlobToken.lit c :: ts => fun n =>
    match n with
    | [] => (false, none)
    | d :: n' => if c = d then matchTokens ts n' else (false, none)
  | GlobToken.any :: ts => fun n =>
    match n with
    | [] => (false, none)
    | _ :: n' => matchTokens ts n'
  | GlobToken.cls m :: ts => fun n =>
    match n with
    | [] => (false, none)
    | d :: n' => if d ∈ m then matchTokens ts n' else (false, none)
  | GlobToken.star :: ts => fun n => starLoop (matchTokens ts) n

/-- Tries the continuation `k` on `ns` and on each shorter non-empty suffix of
`ns`; a failure of `k` counts as no match. -/
def anySuffix (k : List (List Char) → Bool × Option String) :
    List (List Char) → Bool
  | [] => false
  | n :: ns => (k (n :: ns)).1 || anySuffix k ns

/-- Matches the segments of the pattern against the segments of the name; the
segment `**` stands for any number of leading segments of the name. -/
def matchSegments : List (List Char) → List (List Char) → Bool × Option String
  | [] => fun ns => (ns.isEmpty, none)
  | p :: ps => fun ns =>
    if p = ['*', '*'] then
      if ps.isEmpty then (true, none) else (anySuffix (matchSegments ps) ns, none)
    else
      match ns with
      | [] => (false, none)
      | n :: ns' =>
        match matchTokens (tokenize none p) n with
        | (_, some err) => (false, some err)
        | (false, none) => (false, none)
        | (true, none) => matchSegments ps ns'

/-- The pattern is malformed: one of its segments has a character class that is
not closed. -/
def malformed (pattern : List Char) : Bool :=
  (splitOnChar '/' pattern).any (fun seg => decide (GlobToken.bad ∈ tokenize none seg))

/-- Modelled from the spec: `doublestar.Match` belongs to a third-party library that
is not among the source files.  A malformed pattern fails, whatever the name.
Otherwise the pattern and the name are cut at `/`; the segment `**` spans any
number of directory levels and `*` spans within one segment. -/
def globModel : GlobMatcher := fun pattern name =>
  if malformed pattern.data then (false, some "syntax error in pattern")
  else matchSegments (splitOnChar '/' pattern.data) (splitOnChar '/' name.data)

/-- The path of the name `n` under the directories `dirs`. -/
def underDirs (dirs : List (List Char)) (n : List Char) : List Char :=
  dirs.foldr (fun d rest => d ++ '/' :: rest) n

/-! ## Path matching -/

/-- The function `matchPath` of `pipeline.go`. -/
def matchPath (glob : GlobMatcher) (p f : String) : Bool × Option String :=
  let viaPrefix : Bool × Option String :=
    if stringsHasPrefix f p then (true, none) else (false, none)
  if stringsContains p "*" then
    match glob p f with
    | (_, some err) => (false, some ("path matching failed: " ++ err))
    | (true, none) => (true, none)
    | (false, none) => viaPrefix
  else viaPrefix

/-! ## Step resolution -/

/-- The inner loop of `dedupSteps`: is `p` deeply equal to an element of `unique`. -/
def isDuplicate (p : Step) : List Step → Bool
  | [] => false
  | t :: ts => if p = t then true else isDuplicate p ts

/-- The outer loop of `dedupSteps`, from the accumulator `unique`. -/
def dedupLoop (unique : List Step) : List Step → List Step
  | [] => unique
  | p :: ps => if isDuplicate p unique then dedupLoop unique ps
               else dedupLoop (unique ++ [p]) ps

/-- The function `dedupSteps` of `pipeline.go`. -/
def dedupSteps (steps : List Step) : List Step :=
  dedupLoop [] steps

/-- The loop over the changed files for one pattern: `Except.error` when
`matchPath` fails, otherwise whether the loop left through `break`. -/
def scanFiles (glob : GlobMatcher) (p : String) : List String → Except String Bool
  | [] => .ok false
  | f :: fs =>
    match matchPath glob p f with
    | (_, some err) => .error err
    | (true, none) => .ok true
    | (false, none) => scanFiles glob p fs

/-- The loop over the patterns of one rule, from the accumulator `steps`. -/
def scanPaths (glob : GlobMatcher) (files : List String) (step : Step)
    (steps : List Step) : List String → Except String (List Step)
  | [] => .ok steps
  | p :: ps =>
    match scanFiles glob p files with
    | .error err => .error err
    | .ok true => scanPaths glob files step (steps ++ [step]) ps
    | .ok false => scanPaths glob files step steps ps

/-- The loop over the watch rules, from the accumulator `steps`. -/
def scanWatch (glob : GlobMatcher) (files : List String)
    (steps : List Step) : List WatchConfig → Except String (List Step)
  | [] => .ok steps
  | w :: ws =>
    match scanPaths glob files w.Step steps w.Paths with
    | .error err => .error err
    | .ok steps' => scanWatch glob files steps' ws

/-- The function `StepsToTrigger` of `pipeline.go`. -/
def StepsToTrigger (glob : GlobMatcher) (files : List String)
    (watch : List WatchConfig) : Option (List Step) × Option String :=
  match scanWatch glob files [] watch with
  | .error err => (none, some err)
  | .ok steps => (some (dedupSteps steps), none)

/-! ## The diff command -/

/-- The function `Diff` of `pipeline.go`.  The index expression `split[0]` panics
on an empty slice. -/
def Diff (executeCommand : CommandRunner) (command : String) :
    Outcome (Option (List String) × Option String) :=
  match stringsSplit command ' ' with
  | [] => .panics
  | cmd :: args =>
    match executeCommand cmd args with
    | (_, some err) => .returns (none, some ("diff failed: " ++ err))
    | (output, none) =>
      .returns (some (stringsFieldsFunc (stringsTrimSpace output) (fun c => c = '\n')), none)

/-- The length `len(s)` of a slice; the `nil` slice has length zero. -/
def sliceLen {α : Type} : Option (List α) → Nat
  | none => 0
  | some xs => xs.length

/-- The method `DetermineSteps` of `pipeline.go`. -/
def DetermineSteps (executeCommand : CommandRunner) (glob : GlobMatcher) (p : Plugin) :
    Outcome (Option (List Step) × Option String) :=
  match Diff executeCommand p.Diff with
  | .panics => .panics
  | .returns (_, some err) => .returns (none, some err)
  | .returns (diffOutput, none) =>
    if sliceLen diffOutput < 1 then .returns (none, none)
    else
      match StepsToTrigger glob (diffOutput.getD []) p.Watch with
      | (_, some err) => .returns (none, some err)
      | (steps, none) => .returns (steps, none)

/-! ## Pipeline generation and upload -/

/-- The type `Pipeline` of `pipeline.go`. -/
structure Pipeline where
  Steps : List Step
deriving DecidableEq

/-- The type of `yaml.Marshal` at `Pipeline`: the document and the error. -/
abbrev Marshaller := Pipeline → String × Option String

/-- The method `GeneratePipeline` of `pipeline.go`. -/
def GeneratePipeline (marshal : Marshaller) (p : Plugin) (steps : List Step) :
    Option String × Option String :=
  match marshal ⟨steps⟩ with
  | (_, some _) => (none, some "could not serialize the pipeline")
  | (data, none) =>
    let data := if p.Wait then data ++ "- wait" else data
    let data := p.Hooks.foldl (fun d cmd => d ++ ("\n- command: " ++ cmd.Command)) data
    (some data, none)

/-- The method `UploadPipeline` of `pipeline.go`. -/
def UploadPipeline (executeCommand : CommandRunner) (p : Plugin) (pipeline : String) :
    List String × Option String :=
  let args := ["pipeline", "upload", pipeline]
  let args := if p.Interpolation then args ++ ["--no-interpolation"] else args
  match executeCommand "buildkite-agent" args with
  | (_, some err) => (args, some err)
  | (_, none) => (args, none)

/-! ## Inputs of the worked instances -/

/-- Three rules, the first two with the same step. -/
def sharedStepWatch : List WatchConfig :=
  [⟨["services/foo", "services/"], {Trigger := "foo-pipeline"}⟩,
   ⟨["services/foo"], {Trigger := "foo-pipeline"}⟩,
   ⟨["serv"], {Command := "make"}⟩]

/-- The rules of the test `TestPipelinesToTriggerGetsListOfPipelines`. -/
def testWatch : List WatchConfig :=
  [⟨["watch-path-1"], {Trigger := "service-1"}⟩,
   ⟨["watch-path-2/", "watch-path-3/", "watch-path-4"], {Trigger := "service-2"}⟩,
   ⟨["watch-path-5"], {Trigger := "service-3"}⟩,
   ⟨["watch-path-2"], {Trigger := "service-4"}⟩]

/-- The changed files of the test `TestPipelinesToTriggerGetsListOfPipelines`. -/
def testFiles : List String :=
  ["watch-path-1/text.txt", "watch-path-2/.gitignore", "watch-path-2/src/index.go",
   "watch-path-4/test/index_test.go"]

/-- Rules with glob patterns: two of them are matched through the glob matcher,
one through its literal pattern, and the last one matches no file of `globFiles`. -/
def globWatch : List WatchConfig :=
  [⟨["**/*.txt"], {Trigger := "txt"}⟩,
   ⟨["docs/*.md", "src/"], {Trigger := "docs"}⟩,
   ⟨["*.go"], {Trigger := "go"}⟩]

/-- Changed files for `globWatch`. -/
def globFiles : List String :=
  ["src/main.go", "docs/readme.md", "package/docs/other.txt"]

/-- A diff command in the manner of `TestDiff` whose output starts and ends with
white space and has an empty line and a line of one blank inside. -/
def paddedDiffCommand : String :=
  "echo \n\tservices/foo/serverless.yml\n\n \nREADME.md \n"

/-- Rules of which the second has a malformed pattern. -/
def malformedWatch : List WatchConfig :=
  [⟨["*.txt"], {Trigger := "txt"}⟩, ⟨["*[a]x["], {Trigger := "class"}⟩]

/-! ## Predicates used to state the properties -/

/-- The pattern `p` matches at least one of the changed files. -/
def patternMatches (glob : GlobMatcher) (files : List String) (p : String) : Bool :=
  files.any (fun f => (matchPath glob p f).1)

/-- The rule `w` has at least one pattern that matches at least one changed file. -/
def ruleMatches (glob : GlobMatcher) (files : List String) (w : WatchConfig) : Bool :=
  w.Paths.any (patternMatches glob files)

/-- The steps of the rules that match, in the order of the rules. -/
def matchingSteps (glob : GlobMatcher) (files : List String)
    (watch : List WatchConfig) : List Step :=
  (watch.filter (ruleMatches glob files)).map (fun w => w.Step)

/-- The white space of Unicode: the characters with the property White_Space,
given by their code points. -/
def IsWhiteSpace (c : Char) : Prop :=
  c.toNat ∈ [0x09, 0x0A, 0x0B, 0x0C, 0x0D, 0x20, 0x85, 0xA0, 0x1680, 0x2028, 0x2029,
    0x202F, 0x205F, 0x3000] ∨ (0x2000 ≤ c.toNat ∧ c.toNat ≤ 0x200A)

/-- The non-empty lines of `s`: the pieces of `s` between its newline characters,
in their order, without the empty ones. -/
def nonEmptyLines (s : String) : List String :=
  ((splitOnChar '\n' s.data).filter (fun l => !l.isEmpty)).map String.mk

/-- The entry that `GeneratePipeline` appends for a hook. -/
def hookEntry (h : HookConfig) : String :=
  "\n- command: " ++ h.Command

/-- A process runner in the manner of `echo`: the output is the arguments joined
by blanks, and the only program is `echo`. -/
def echoRunner : CommandRunner := fun cmd args =>
  if cmd = "echo" then (String.intercalate " " args, none)
  else ("", some ("command " ++ cmd ++ " failed"))

/-- A serializer that gives the document of the test `TestGeneratePipeline` for
every step list. -/
def testMarshal : Marshaller := fun _ =>
  ("steps:\n- trigger: foo-service-pipeline\n  build:\n    message: build message\n", none)

/-- The plugin of the test `TestGeneratePipeline`. -/
def testHooksPlugin : Plugin :=
  {Wait := true, Hooks := [⟨"echo \"hello world\""⟩, ⟨"cat ./file.txt"⟩]}

/-- A matcher that fails on every pattern. -/
def globModel.failAll : GlobMatcher := fun _ _ => (false, some "syntax error in pattern")

/-! ## Lemmas on `matchPath` -/

theorem matchPath_cases (glob : GlobMatcher) (p f : String) :
    matchPath glob p f = (true, none) ∨ matchPath glob p f = (false, none) ∨
      ∃ e, matchPath glob p f = (false, some e) := by
  unfold matchPath
  by_cases hs : stringsContains p "*" = true
  · rcases hg : glob p f with ⟨b, _ | e⟩
    · cases b <;> by_cases hp : stringsHasPrefix f p = true <;> simp [hs, hg, hp]
    · simp [hs, hg]
  · by_cases hp : stringsHasPrefix f p = true <;> simp [hs, hp]

theorem matchPath_error_fst (glob : GlobMatcher) (p f : String)
    (h : (matchPath glob p f).2 ≠ none) : (matchPath glob p f).1 = false := by
  rcases matchPath_cases glob p f with h1 | h1 | ⟨e, h1⟩ <;> simp_all

theorem stringsContains_star (p : String) :
    stringsContains p "*" = true ↔ '*' ∈ p.data := by
  unfold stringsContains
  rw [decide_eq_true_iff]
  constructor
  · intro h
    exact h.subset (List.mem_singleton_self '*')
  · intro h
    obtain ⟨s, t, hst⟩ := List.append_of_mem h
    exact ⟨s, t, by rw [hst]; simp [String.data]⟩

theorem stringsHasPrefix_iff (f p : String) : stringsHasPrefix f p = true ↔ p.data <+: f.data := by
  unfold stringsHasPrefix
  exact List.isPrefixOf_iff_prefix

theorem matchPath_of_no_star (glob : GlobMatcher) (p f : String) (h : '*' ∉ p.data) :
    matchPath glob p f = (decide (p.data <+: f.data), none) := by
  have hs : stringsContains p "*" = false := by
    cases hc : stringsContains p "*"
    · rfl
    · exact absurd ((stringsContains_star p).1 hc) h
  unfold matchPath
  by_cases hp : stringsHasPrefix f p = true
  · simp [hs, hp, (stringsHasPrefix_iff f p).1 hp]
  · have : ¬ p.data <+: f.data := fun h' => hp ((stringsHasPrefix_iff f p).2 h')
    simp [hs, hp, this]

/-! ## Lemmas on `dedupSteps` -/

theorem isDuplicate_iff (p : Step) (unique : List Step) :
    isDuplicate p unique = true ↔ p ∈ unique := by
  induction unique with
  | nil => simp [isDuplicate]
  | cons t ts ih =>
    by_cases h : p = t
    · simp [isDuplicate, h]
    · simp [isDuplicate, h, ih]

theorem dedupLoop_cons_mem (unique : List Step) (p : Step) (ps : List Step)
    (h : p ∈ unique) : dedupLoop unique (p :: ps) = dedupLoop unique ps := by
  simp [dedupLoop, (isDuplicate_iff p unique).2 h]

theorem dedupLoop_cons_not_mem (unique : List Step) (p : Step) (ps : List Step)
    (h : p ∉ unique) : dedupLoop unique (p :: ps) = dedupLoop (unique ++ [p]) ps := by
  have : isDuplicate p unique = false := by
    cases hd : isDuplicate p unique
    · rfl
    · exact absurd ((isDuplicate_iff p unique).1 hd) h
  simp [dedupLoop, this]

theorem dedupLoop_nodup (unique steps : List Step) (h : unique.Nodup) :
    (dedupLoop unique steps).Nodup := by
  induction steps generalizing unique with
  | nil => simpa [dedupLoop] using h
  | cons p ps ih =>
    by_cases hp : p ∈ unique
    · rw [dedupLoop_cons_mem _ _ _ hp]
      exact ih unique h
    · rw [dedupLoop_cons_not_mem _ _ _ hp]
      apply ih
      rw [List.nodup_append]
      refine ⟨h, List.nodup_singleton p, ?_⟩
      intro a ha hb
      rw [List.mem_singleton] at hb
      exact hp (hb ▸ ha)

theorem dedupLoop_of_nodup (unique steps : List Step) (h : (unique ++ steps).Nodup) :
    dedupLoop unique steps = unique ++ steps := by
  induction steps generalizing unique with
  | nil => simp [dedupLoop]
  | cons p ps ih =>
    have hp : p ∉ unique := by
      intro hmem
      have := (List.nodup_append.1 h).2.2
      exact this hmem (List.mem_cons_self p ps)
    rw [dedupLoop_cons_not_mem _ _ _ hp, ih]
    · simp
    · simpa using h

theorem dedupLoop_cons_cons (unique : List Step) (p : Step) (ps : List Step) :
    dedupLoop unique (p :: p :: ps) = dedupLoop unique (p :: ps) := by
  by_cases hp : p ∈ unique
  · rw [dedupLoop_cons_mem _ _ _ hp]
  · rw [dedupLoop_cons_not_mem _ _ _ hp, dedupLoop_cons_not_mem _ _ _ hp]
    exact dedupLoop_cons_mem _ _ _ (by simp)

theorem dedupLoop_replicate (unique : List Step) (p : Step) (k : Nat) (ps : List Step) :
    dedupLoop unique (List.replicate (k + 1) p ++ ps) = dedupLoop unique (p :: ps) := by
  induction k with
  | zero => rfl
  | succ k ih =>
    have : List.replicate (k + 1 + 1) p ++ ps = p :: p :: (List.replicate k p ++ ps) := rfl
    rw [this, dedupLoop_cons_cons]
    exact ih

theorem dedupLoop_cons_congr (p : Step) (xs ys : List Step)
    (h : ∀ unique, dedupLoop unique xs = dedupLoop unique ys) (unique : List Step) :
    dedupLoop unique (p :: xs) = dedupLoop unique (p :: ys) := by
  by_cases hp : p ∈ unique
  · rw [dedupLoop_cons_mem _ _ _ hp, dedupLoop_cons_mem _ _ _ hp, h]
  · rw [dedupLoop_cons_not_mem _ _ _ hp, dedupLoop_cons_not_mem _ _ _ hp, h]

/-! ## Lemmas on the scan -/

theorem scanFiles_ok (glob : GlobMatcher) (p : String) (files : List String) (b : Bool)
    (h : scanFiles glob p files = .ok b) : b = patternMatches glob files p := by
  induction files with
  | nil => simpa [scanFiles, patternMatches] using h.symm
  | cons f fs ih =>
    rcases matchPath_cases glob p f with h1 | h1 | ⟨e, h1⟩
    · simp [scanFiles, h1] at h
      simp [patternMatches, h1, ← h]
    · simp [scanFiles, h1] at h
      have := ih h
      simp [patternMatches, h1] at this ⊢
      exact this
    · simp [scanFiles, h1] at h

theorem scanPaths_ok (glob : GlobMatcher) (files : List String) (step : Step)
    (steps : List Step) (ps : List String) (r : List Step)
    (h : scanPaths glob files step steps ps = .ok r) :
    ∃ k, r = steps ++ List.replicate k step ∧
      (k = 0 ↔ ps.any (patternMatches glob files) = false) := by
  induction ps generalizing steps with
  | nil =>
    refine ⟨0, ?_, by simp⟩
    simpa [scanPaths] using h.symm
  | cons p ps ih =>
    rcases hs : scanFiles glob p files with e | b
    · simp [scanPaths, hs] at h
    · have hb := scanFiles_ok glob p files b hs
      cases b
      · simp [scanPaths, hs] at h
        obtain ⟨k, hk, hz⟩ := ih steps h
        refine ⟨k, hk, ?_⟩
        rw [hz]
        simp [← hb]
      · simp [scanPaths, hs] at h
        obtain ⟨k, hk, _⟩ := ih (steps ++ [step]) h
        refine ⟨k + 1, ?_, ?_⟩
        · rw [hk, List.replicate_succ]
          simp
        · simp [← hb]

theorem scanWatch_ok (glob : GlobMatcher) (files : List String) (steps : List Step)
    (watch : List WatchConfig) (r : List Step)
    (h : scanWatch glob files steps watch = .ok r) :
    ∃ t, r = steps ++ t ∧
      ∀ unique, dedupLoop unique t = dedupLoop unique (matchingSteps glob files watch) := by
  induction watch generalizing steps with
  | nil =>
    refine ⟨[], ?_, fun _ => rfl⟩
    simpa [scanWatch] using h.symm
  | cons w ws ih =>
    rcases hs : scanPaths glob files w.Step steps w.Paths with e | steps'
    · simp [scanWatch, hs] at h
    · simp [scanWatch, hs] at h
      obtain ⟨k, hk, hz⟩ := scanPaths_ok glob files w.Step steps w.Paths steps' hs
      obtain ⟨t, ht, hd⟩ := ih steps' h
      refine ⟨List.replicate k w.Step ++ t, ?_, ?_⟩
      · rw [ht, hk, List.append_assoc]
      · intro unique
        cases k with
        | zero =>
          have hw : ruleMatches glob files w = false := hz.1 rfl
          simp [matchingSteps, hw] at hd ⊢
          exact hd unique
        | succ k =>
          have hw : ruleMatches glob files w = true := by
            cases hr : ruleMatches glob files w
            · exact absurd (hz.2 hr) (Nat.succ_ne_zero k)
            · rfl
          rw [dedupLoop_replicate]
          have : matchingSteps glob files (w :: ws) = w.Step :: matchingSteps glob files ws := by
            simp [matchingSteps, hw]
          rw [this]
          exact dedupLoop_cons_congr _ _ _ hd unique

theorem StepsToTrigger_ok (glob : GlobMatcher) (files : List String)
    (watch : List WatchConfig) (r : List Step)
    (h : (StepsToTrigger glob files watch).1 = some r) :
    r = dedupSteps (matchingSteps glob files watch) := by
  unfold StepsToTrigger at h
  rcases hs : scanWatch glob files [] watch with e | steps
  · simp [hs] at h
  · simp [hs] at h
    obtain ⟨t, ht, hd⟩ := scanWatch_ok glob files [] watch steps hs
    simp at ht
    rw [← h, ht]
    exact hd []

theorem StepsToTrigger_cases (glob : GlobMatcher) (files : List String)
    (watch : List WatchConfig) :
    (∃ r, StepsToTrigger glob files watch = (some r, none)) ∨
      ∃ e, StepsToTrigger glob files watch = (none, some e) := by
  unfold StepsToTrigger
  rcases scanWatch glob files [] watch with e | steps
  · exact Or.inr ⟨e, rfl⟩
  · exact Or.inl ⟨_, rfl⟩

theorem patternMatches_perm (glob : GlobMatcher) (files files' : List String)
    (hp : files.Perm files') (p : String) :
    patternMatches glob files p = patternMatches glob files' p := by
  unfold patternMatches
  rw [Bool.eq_iff_iff, List.any_eq_true, List.any_eq_true]
  constructor
  · rintro ⟨x, hx, h⟩
    exact ⟨x, hp.mem_iff.1 hx, h⟩
  · rintro ⟨x, hx, h⟩
    exact ⟨x, hp.mem_iff.2 hx, h⟩

theorem matchPath_error_indep (glob : GlobMatcher)
    (hg : ∀ p f f', (glob p f).2 = (glob p f').2) (p f f' : String) :
    (matchPath glob p f).2 = (matchPath glob p f').2 := by
  unfold matchPath
  by_cases hs : stringsContains p "*" = true
  · have h := hg p f f'
    rcases h1 : glob p f with ⟨b, _ | e⟩ <;> rcases h2 : glob p f' with ⟨b', _ | e'⟩
    · cases b <;> cases b' <;> by_cases hp : stringsHasPrefix f p = true <;>
        by_cases hp' : stringsHasPrefix f' p = true <;> simp [hs, hp, hp']
    · rw [h1, h2] at h
      simp at h
    · rw [h1, h2] at h
      simp at h
    · rw [h1, h2] at h
      simp at h
      simp [hs, h]
  · by_cases hp : stringsHasPrefix f p = true <;>
      by_cases hp' : stringsHasPrefix f' p = true <;> simp [hs, hp, hp']

theorem scanFiles_of_no_error (glob : GlobMatcher) (p : String) (files : List String)
    (h : ∀ f ∈ files, (matchPath glob p f).2 = none) :
    scanFiles glob p files = .ok (patternMatches glob files p) := by
  induction files with
  | nil => rfl
  | cons f fs ih =>
    have hf := h f (List.mem_cons_self f fs)
    have ih' := ih (fun g hg => h g (List.mem_cons_of_mem f hg))
    rcases matchPath_cases glob p f with h1 | h1 | ⟨e, h1⟩
    · simp [scanFiles, h1, patternMatches]
    · simp [scanFiles, h1, ih']
      simp [patternMatches, h1]
    · rw [h1] at hf
      simp at hf

theorem scanFiles_perm (glob : GlobMatcher)
    (hg : ∀ p f f', (glob p f).2 = (glob p f').2) (p : String)
    (files files' : List String) (hp : files.Perm files') :
    scanFiles glob p files = scanFiles glob p files' := by
  cases files with
  | nil => rw [List.nil_perm.1 hp]
  | cons f fs =>
    cases files' with
    | nil => exact absurd (List.perm_nil.1 hp) (List.cons_ne_nil f fs)
    | cons f' fs' =>
      rcases he : (matchPath glob p f).2 with _ | e
      · have hall : ∀ g, (matchPath glob p g).2 = none := fun g => by
          rw [matchPath_error_indep glob hg p g f, he]
        rw [scanFiles_of_no_error glob p _ (fun g _ => hall g),
          scanFiles_of_no_error glob p _ (fun g _ => hall g),
          patternMatches_perm glob _ _ hp]
      · have he' : (matchPath glob p f').2 = some e := by
          rw [matchPath_error_indep glob hg p f' f, he]
        have h1 : matchPath glob p f = (false, some e) := by
          rcases matchPath_cases glob p f with h | h | ⟨e0, h⟩ <;> rw [h] at he <;> simp_all
        have h2 : matchPath glob p f' = (false, some e) := by
          rcases matchPath_cases glob p f' with h | h | ⟨e0, h⟩ <;> rw [h] at he' <;> simp_all
        simp [scanFiles, h1, h2]

theorem scanPaths_congr (glob : GlobMatcher) (files files' : List String)
    (h : ∀ p, scanFiles glob p files = scanFiles glob p files') (step : Step)
    (steps : List Step) (ps : List String) :
    scanPaths glob files step steps ps = scanPaths glob files' step steps ps := by
  induction ps generalizing steps with
  | nil => rfl
  | cons p ps ih =>
    simp only [scanPaths, h p]
    rcases scanFiles glob p files' with e | b
    · rfl
    · cases b
      · exact ih steps
      · exact ih (steps ++ [step])

theorem scanWatch_congr (glob : GlobMatcher) (files files' : List String)
    (h : ∀ p, scanFiles glob p files = scanFiles glob p files')
    (steps : List Step) (watch : List WatchConfig) :
    scanWatch glob files steps watch = scanWatch glob files' steps watch := by
  induction watch generalizing steps with
  | nil => rfl
  | cons w ws ih =>
    simp only [scanWatch, scanPaths_congr glob files files' h]
    rcases scanPaths glob files' w.Step steps w.Paths with e | steps'
    · rfl
    · exact ih steps'

theorem scanFiles_append_error (glob : GlobMatcher) (p : String) (fs₁ fs₂ : List String)
    (f e : String) (h₁ : ∀ g ∈ fs₁, matchPath glob p g = (false, none))
    (h : (matchPath glob p f).2 = some e) :
    scanFiles glob p (fs₁ ++ f :: fs₂) = .error e := by
  induction fs₁ with
  | nil =>
    rcases hm : matchPath glob p f with ⟨b, _ | e'⟩
    · rw [hm] at h
      simp at h
    · rw [hm] at h
      simp at h
      simp [scanFiles, hm, h]
  | cons g gs ih =>
    have hg := h₁ g (List.mem_cons_self g gs)
    simp only [List.cons_append, scanFiles, hg]
    exact ih (fun x hx => h₁ x (List.mem_cons_of_mem g hx))

theorem scanPaths_append (glob : GlobMatcher) (files : List String) (step : Step)
    (steps : List Step) (ps₁ ps₂ : List String) :
    scanPaths glob files step steps (ps₁ ++ ps₂) =
      match scanPaths glob files step steps ps₁ with
      | .error err => .error err
      | .ok s => scanPaths glob files step s ps₂ := by
  induction ps₁ generalizing steps with
  | nil => rfl
  | cons p ps ih =>
    simp only [List.cons_append, scanPaths]
    rcases scanFiles glob p files with e | b
    · rfl
    · cases b
      · exact ih steps
      · exact ih (steps ++ [step])

theorem scanWatch_append (glob : GlobMatcher) (files : List String)
    (steps : List Step) (ws₁ ws₂ : List WatchConfig) :
    scanWatch glob files steps (ws₁ ++ ws₂) =
      match scanWatch glob files steps ws₁ with
      | .error err => .error err
      | .ok s => scanWatch glob files s ws₂ := by
  induction ws₁ generalizing steps with
  | nil => rfl
  | cons w ws ih =>
    simp only [List.cons_append, scanWatch]
    rcases scanPaths glob files w.Step steps w.Paths with e | s
    · rfl
    · exact ih s

/-! ## Step resolution: the properties -/

/-- C1 (counterexample): two rules that carry the same step and both match give
one step, while the sequence of the matching rules' steps has two. -/
theorem StepsToTrigger_not_one_step_per_rule :
    StepsToTrigger globModel ["services/foo/serverless.yml"]
        [⟨["services/foo"], {Trigger := "foo-pipeline"}⟩,
         ⟨["services/"], {Trigger := "foo-pipeline"}⟩]
      = (some [{Trigger := "foo-pipeline"}], none) ∧
    matchingSteps globModel ["services/foo/serverless.yml"]
        [⟨["services/foo"], {Trigger := "foo-pipeline"}⟩,
         ⟨["services/"], {Trigger := "foo-pipeline"}⟩]
      = [{Trigger := "foo-pipeline"}, {Trigger := "foo-pipeline"}] := by
  decide

/-- C1 (amended): when `StepsToTrigger` succeeds, its result is the sequence of
the matching rules' steps, in rule declaration order, after `dedupSteps`; when no
two matching rules carry equal steps the result is exactly that sequence, one step
for each matching rule and none for the others. -/
theorem StepsToTrigger_matching_rules (glob : GlobMatcher) (files : List String)
    (watch : List WatchConfig) (r : List Step)
    (h : StepsToTrigger glob files watch = (some r, none)) :
    r = dedupSteps (matchingSteps glob files watch) ∧
      ((matchingSteps glob files watch).Nodup → r = matchingSteps glob files watch) := by
  have hr := StepsToTrigger_ok glob files watch r (by rw [h])
  refine ⟨hr, fun hn => ?_⟩
  rw [hr]
  unfold dedupSteps
  rw [dedupLoop_of_nodup [] _ (by simpa using hn)]
  rfl

/-- C1 (instance): the rules and files of `TestPipelinesToTriggerGetsListOfPipelines`
give the steps of the first, second and fourth rule, the rules that match. -/
theorem StepsToTrigger_matching_rules_witness :
    StepsToTrigger globModel testFiles testWatch
      = (some [{Trigger := "service-1"}, {Trigger := "service-2"}, {Trigger := "service-4"}],
          none) ∧
    ([{Trigger := "service-1"}, {Trigger := "service-2"}, {Trigger := "service-4"}] : List Step)
      = matchingSteps globModel testFiles testWatch :=
  ⟨by decide,
   (StepsToTrigger_matching_rules globModel testFiles testWatch _ (by decide)).2 (by decide)⟩

/-- C2: the step list returned by `StepsToTrigger` never holds two equal steps at
different positions. -/
theorem StepsToTrigger_nodup (glob : GlobMatcher) (files : List String)
    (watch : List WatchConfig) (r : List Step)
    (h : (StepsToTrigger glob files watch).1 = some r) :
    ∀ i j : Fin r.length, r.get i = r.get j → i = j := by
  have hr := StepsToTrigger_ok glob files watch r h
  have hn : r.Nodup := by
    rw [hr]
    exact dedupLoop_nodup [] _ List.nodup_nil
  intro i j hij
  exact (List.Nodup.get_inj_iff hn).1 hij

/-- C2 (instance): three matching rules, two of them with the same step, give two
steps that differ. -/
theorem StepsToTrigger_nodup_witness :
    (StepsToTrigger globModel ["services/foo/serverless.yml"] sharedStepWatch).1
      = some [{Trigger := "foo-pipeline"}, {Command := "make"}] ∧
    ∀ i j : Fin ([{Trigger := "foo-pipeline"}, {Command := "make"}] : List Step).length,
      ([{Trigger := "foo-pipeline"}, {Command := "make"}] : List Step).get i
        = ([{Trigger := "foo-pipeline"}, {Command := "make"}] : List Step).get j → i = j :=
  ⟨by decide,
   StepsToTrigger_nodup globModel ["services/foo/serverless.yml"] sharedStepWatch _ (by decide)⟩

/-- C6: an error of `matchPath` on a pair that the scan evaluates aborts the
resolution.  The scan evaluates the pair `(p, f)` when the rules before the rule
of `p` and the patterns before `p` are scanned without error and no file before
`f` matches `p`.  Then `matchPath` reports no match for the pair, and
`StepsToTrigger` returns the error and the `nil` step list, whatever steps the
earlier rules and patterns have recorded. -/
theorem StepsToTrigger_error_aborts (glob : GlobMatcher)
    (ws₁ ws₂ : List WatchConfig) (ps₁ ps₂ : List String) (step : Step)
    (fs₁ fs₂ : List String) (p f e : String)
    (hreach : (StepsToTrigger glob (fs₁ ++ f :: fs₂) (ws₁ ++ [⟨ps₁, step⟩])).2 = none)
    (hfiles : ∀ g ∈ fs₁, matchPath glob p g = (false, none))
    (herr : (matchPath glob p f).2 = some e) :
    (matchPath glob p f).1 = false ∧
    StepsToTrigger glob (fs₁ ++ f :: fs₂) (ws₁ ++ ⟨ps₁ ++ p :: ps₂, step⟩ :: ws₂)
      = (none, some e) := by
  refine ⟨matchPath_error_fst glob p f (by rw [herr]; simp), ?_⟩
  unfold StepsToTrigger at hreach ⊢
  rw [scanWatch_append] at hreach ⊢
  rcases h₁ : scanWatch glob (fs₁ ++ f :: fs₂) [] ws₁ with e₁ | s₁
  · simp [h₁] at hreach
  · simp only [h₁, scanWatch] at hreach ⊢
    rw [scanPaths_append]
    rcases h₂ : scanPaths glob (fs₁ ++ f :: fs₂) step s₁ ps₁ with e₂ | s₂
    · simp [h₂] at hreach
    · simp [scanPaths, scanFiles_append_error glob p fs₁ fs₂ f e hfiles herr]

/-- C6 (instance): the first rule and the first pattern of the second rule have
recorded their steps when the malformed pattern fails on the first file; the
result is the error and the `nil` list. -/
theorem StepsToTrigger_error_aborts_witness :
    StepsToTrigger globModel ["docs/a.md", "axq"]
        ([⟨["docs/"], {Trigger := "docs"}⟩] ++ [⟨["docs/a"], {Trigger := "txt"}⟩])
      = (some [{Trigger := "docs"}, {Trigger := "txt"}], none) ∧
    (matchPath globModel "*[a]x[" "docs/a.md").1 = false ∧
    StepsToTrigger globModel ([] ++ "docs/a.md" :: ["axq"])
        ([⟨["docs/"], {Trigger := "docs"}⟩] ++
          ⟨["docs/a"] ++ "*[a]x[" :: ["docs"], {Trigger := "txt"}⟩ ::
          [⟨["docs/"], {Trigger := "late"}⟩])
      = (none, some "path matching failed: syntax error in pattern") :=
  ⟨by decide,
   StepsToTrigger_error_aborts globModel [⟨["docs/"], {Trigger := "docs"}⟩]
     [⟨["docs/"], {Trigger := "late"}⟩] ["docs/a"] ["docs"] {Trigger := "txt"}
     [] ["axq"] "*[a]x[" "docs/a.md" "path matching failed: syntax error in pattern"
     (by decide) (by decide) (by decide)⟩

/-! ## Path matching: the properties -/

/-- C4: for a pattern without `*`, whatever else it contains, `matchPath` returns
no error and reports a match iff the path starts with the pattern as a literal
prefix; no path-segment boundary is required, so `services/foo` matches both
`services/foo/serverless.yml` and `services/foobar/x`. -/
theorem matchPath_literal (glob : GlobMatcher) :
    (∀ p f : String, '*' ∉ p.data →
      (matchPath glob p f).2 = none ∧
      ((matchPath glob p f).1 = true ↔ p.data <+: f.data)) ∧
    matchPath glob "services/foo" "services/foo/serverless.yml" = (true, none) ∧
    matchPath glob "services/foo" "services/foobar/x" = (true, none) ∧
    matchPath glob "a?[b]\x7bc,d\x7d" "a?[b]\x7bc,d\x7d/x" = (true, none) ∧
    matchPath glob "a?[b]\x7bc,d\x7d" "axbc" = (false, none) := by
  refine ⟨fun p f h => ?_, ?_, ?_, ?_, ?_⟩
  · rw [matchPath_of_no_star glob p f h]
    simp
  · rw [matchPath_of_no_star glob _ _ (by decide)]
    decide
  · rw [matchPath_of_no_star glob _ _ (by decide)]
    decide
  · rw [matchPath_of_no_star glob _ _ (by decide)]
    decide
  · rw [matchPath_of_no_star glob _ _ (by decide)]
    decide

/-- C5 (counterexample): the glob matcher rejects the path `*.txt/x` for the
pattern `*.txt`, and `matchPath` reports a match all the same, because the path
starts with the text of the pattern. -/
theorem matchPath_falls_through_to_literal :
    '*' ∈ "*.txt".data ∧
    globModel "*.txt" "*.txt/x" = (false, none) ∧
    matchPath globModel "*.txt" "*.txt/x" = (true, none) := by
  decide

/-- C5 (amended): for a pattern containing `*`, when the glob evaluation fails
`matchPath` returns the failure and no match, without trying the literal prefix;
when it does not fail, `matchPath` returns no error and reports a match iff the
glob matcher matches the path or the path starts with the pattern as a literal
prefix. -/
theorem matchPath_glob (glob : GlobMatcher) (p f : String) (h : '*' ∈ p.data) :
    (∀ e, (glob p f).2 = some e →
      matchPath glob p f = (false, some ("path matching failed: " ++ e))) ∧
    ((glob p f).2 = none →
      (matchPath glob p f).2 = none ∧
      ((matchPath glob p f).1 = true ↔ ((glob p f).1 = true ∨ p.data <+: f.data))) := by
  have hs := (stringsContains_star p).2 h
  unfold matchPath
  rcases hg : glob p f with ⟨b, _ | e⟩
  · cases b
    · by_cases hp : stringsHasPrefix f p = true
      · simp [hs, hp, (stringsHasPrefix_iff f p).1 hp]
      · have : ¬ p.data <+: f.data := fun h' => hp ((stringsHasPrefix_iff f p).2 h')
        simp [hs, hp, this]
    · simp [hs]
  · simp [hs]

/-- C5 (instance): a malformed pattern gives the failure and no match; `*.txt`
rejects `.gitignore`, which does not start with `*.txt`, and matches `text.txt`. -/
theorem matchPath_glob_witness :
    '*' ∈ "*[a]x[".data ∧
    matchPath globModel "*[a]x[" "axq"
      = (false, some ("path matching failed: " ++ "syntax error in pattern")) ∧
    (matchPath globModel "*.txt" ".gitignore").1 = false ∧
    (matchPath globModel "*.txt" "text.txt").1 = true :=
  ⟨by decide,
   (matchPath_glob globModel "*[a]x[" "axq" (by decide)).1 _ (by decide),
   by
     have h := ((matchPath_glob globModel "*.txt" ".gitignore" (by decide)).2 (by decide)).2
     cases hm : (matchPath globModel "*.txt" ".gitignore").1
     · rfl
     · exact absurd (h.1 hm) (by decide),
   ((matchPath_glob globModel "*.txt" "text.txt" (by decide)).2 (by decide)).2.2
     (Or.inl (by decide))⟩

/-! ## Lemmas on package `strings` and on `Diff` -/

theorem splitOnChar_ne_nil (sep : Char) (cs : List Char) : splitOnChar sep cs ≠ [] := by
  induction cs with
  | nil => simp [splitOnChar]
  | cons c cs ih =>
    unfold splitOnChar
    by_cases h : c = sep
    · simp [h]
    · rcases hsp : splitOnChar sep cs with _ | ⟨w, ws⟩ <;> simp [h]

theorem splitOnChar_cons_ne (sep c : Char) (cs : List Char) (h : c ≠ sep) :
    ∃ w ws, splitOnChar sep cs = w :: ws ∧ splitOnChar sep (c :: cs) = (c :: w) :: ws := by
  rcases hsp : splitOnChar sep cs with _ | ⟨w, ws⟩
  · exact absurd hsp (splitOnChar_ne_nil sep cs)
  · exact ⟨w, ws, rfl, by simp [splitOnChar, h, hsp]⟩

theorem splitOnChar_not_mem (sep : Char) (cs l : List Char)
    (hl : l ∈ splitOnChar sep cs) : sep ∉ l := by
  induction cs generalizing l with
  | nil =>
    simp [splitOnChar] at hl
    simp [hl]
  | cons c cs ih =>
    by_cases h : c = sep
    · simp [splitOnChar, h] at hl
      rcases hl with hl | hl
      · simp [hl]
      · exact ih l hl
    · obtain ⟨w, ws, h1, h2⟩ := splitOnChar_cons_ne sep c cs h
      rw [h2] at hl
      rw [h1] at ih
      rcases List.mem_cons.1 hl with hl | hl
      · rw [hl]
        intro hmem
        rcases List.mem_cons.1 hmem with h' | h'
        · exact h h'.symm
        · exact ih w (List.mem_cons_self w ws) h'
      · exact ih l (List.mem_cons_of_mem w hl)

theorem fieldsLoop_eq (sep : Char) (cs : List Char) (spans : List (List Char))
    (start : Option (List Char)) (hstart : ∀ w, start = some w → w ≠ []) :
    ∃ w ws, splitOnChar sep cs = w :: ws ∧
      fieldsLoop (fun c => decide (c = sep)) spans start cs =
        spans ++ ((start.getD [] ++ w) :: ws).filter (fun l => !l.isEmpty) := by
  induction cs generalizing spans start with
  | nil =>
    refine ⟨[], [], rfl, ?_⟩
    cases start with
    | none => simp [fieldsLoop]
    | some w =>
      have := hstart w rfl
      simp [fieldsLoop, this]
  | cons c cs ih =>
    by_cases h : c = sep
    · refine ⟨[], splitOnChar sep cs, by simp [splitOnChar, h], ?_⟩
      cases start with
      | none =>
        obtain ⟨w, ws, h1, h2⟩ := ih spans none (by simp)
        simp [fieldsLoop, h, h1]
        simpa [h] using h2
      | some v =>
        have hv := hstart v rfl
        obtain ⟨w, ws, h1, h2⟩ := ih (spans ++ [v]) none (by simp)
        simp [fieldsLoop, h, h1, hv]
        simpa [h] using h2
    · obtain ⟨w, ws, h1, h2⟩ := splitOnChar_cons_ne sep c cs h
      refine ⟨c :: w, ws, h2, ?_⟩
      cases start with
      | none =>
        obtain ⟨w', ws', h1', h2'⟩ := ih spans (some [c]) (by simp)
        rw [h1] at h1'
        obtain ⟨rfl, rfl⟩ := List.cons.inj h1'
        simp [fieldsLoop, h]
        simpa using h2'
      | some v =>
        obtain ⟨w', ws', h1', h2'⟩ := ih spans (some (v ++ [c])) (by simp)
        rw [h1] at h1'
        obtain ⟨rfl, rfl⟩ := List.cons.inj h1'
        simp [fieldsLoop, h]
        simpa using h2'

theorem stringsFieldsFunc_newline (s : String) :
    stringsFieldsFunc s (fun c => c = '\n') = nonEmptyLines s := by
  obtain ⟨w, ws, h1, h2⟩ := fieldsLoop_eq '\n' s.data [] none (by simp)
  unfold stringsFieldsFunc nonEmptyLines
  rw [h2, h1]
  simp

theorem stringsSplit_ne_nil (s : String) (sep : Char) : stringsSplit s sep ≠ [] := by
  unfold stringsSplit
  simpa using splitOnChar_ne_nil sep s.data

theorem Diff_cases (executeCommand : CommandRunner) (command : String) :
    (∃ paths, Diff executeCommand command = .returns (some paths, none)) ∨
      ∃ e, Diff executeCommand command = .returns (none, some e) := by
  unfold Diff
  rcases hs : stringsSplit command ' ' with _ | ⟨cmd, args⟩
  · exact absurd hs (stringsSplit_ne_nil command ' ')
  · simp only
    rcases executeCommand cmd args with ⟨out, _ | e⟩
    · exact Or.inl ⟨_, rfl⟩
    · exact Or.inr ⟨_, rfl⟩

theorem foldl_hookEntry (hooks : List HookConfig) (data : String) :
    hooks.foldl (fun d cmd => d ++ ("\n- command: " ++ cmd.Command)) data
      = data ++ String.join (hooks.map hookEntry) := by
  have hj : ∀ (l : List String) (acc : String),
      l.foldl (fun r s => r ++ s) acc = acc ++ l.foldl (fun r s => r ++ s) "" := by
    intro l
    induction l with
    | nil => intro acc; simp
    | cons x xs ih =>
      intro acc
      simp only [List.foldl_cons]
      rw [ih (acc ++ x), ih ("" ++ x), String.empty_append, String.append_assoc]
  induction hooks generalizing data with
  | nil => simp [String.join]
  | cons h hs ih =>
    simp only [List.foldl_cons, List.map_cons, String.join]
    rw [ih, hj _ ("" ++ hookEntry h), String.empty_append, String.append_assoc]
    rfl

theorem UploadPipeline_eq (executeCommand : CommandRunner) (p : Plugin) (path : String) :
    UploadPipeline executeCommand p path =
      ((if p.Interpolation then ["pipeline", "upload", path] ++ ["--no-interpolation"]
        else ["pipeline", "upload", path]),
       (executeCommand "buildkite-agent"
        (if p.Interpolation then ["pipeline", "upload", path] ++ ["--no-interpolation"]
         else ["pipeline", "upload", path])).2) := by
  unfold UploadPipeline
  simp only
  generalize (if p.Interpolation then ["pipeline", "upload", path] ++ ["--no-interpolation"]
    else ["pipeline", "upload", path]) = a
  rcases executeCommand "buildkite-agent" a with ⟨o, _ | e⟩ <;> rfl

/-! ## Pipeline generation, upload and the diff command: the properties -/

/-- C7: when the steps serialize, the document of `GeneratePipeline` is the
serialized steps, then `- wait` iff `Wait` is true, then for each hook in declared
order a line break and `- command: ` with the command of the hook, and nothing
else. -/
theorem GeneratePipeline_document (marshal : Marshaller) (p : Plugin) (steps : List Step)
    (data : String) (h : marshal ⟨steps⟩ = (data, none)) :
    GeneratePipeline marshal p steps =
      (some (data ++ (if p.Wait then "- wait" else "") ++
        String.join (p.Hooks.map (fun hook => "\n- command: " ++ hook.Command))), none) := by
  unfold GeneratePipeline
  simp only [h]
  rw [foldl_hookEntry]
  cases p.Wait
  · simp [hookEntry]
    rfl
  · simp [hookEntry]
    rfl

/-- C7 (instance): the document of `TestGeneratePipeline`. -/
theorem GeneratePipeline_document_witness :
    testMarshal ⟨[{Trigger := "foo-service-pipeline", Build := {Message := "build message"}}]⟩
      = ("steps:\n- trigger: foo-service-pipeline\n  build:\n    message: build message\n",
          none) ∧
    GeneratePipeline testMarshal testHooksPlugin
        [{Trigger := "foo-service-pipeline", Build := {Message := "build message"}}]
      = (some ("steps:\n- trigger: foo-service-pipeline\n  build:\n    message: build message\n"
          ++ "- wait" ++ "\n- command: echo \"hello world\"\n- command: cat ./file.txt"), none) :=
  ⟨rfl, (GeneratePipeline_document testMarshal testHooksPlugin _ _ rfl).trans (by decide)⟩

/-- C8: the argument list that `UploadPipeline` returns is `pipeline`, `upload`
and the path, followed by `--no-interpolation` iff the flag `Interpolation` is set;
it is the same for every behaviour of the upload command, whose error is returned
with it. -/
theorem UploadPipeline_args (executeCommand executeCommand' : CommandRunner) (p : Plugin)
    (path : String) :
    (UploadPipeline executeCommand p path).1 =
      (if p.Interpolation then ["pipeline", "upload", path, "--no-interpolation"]
       else ["pipeline", "upload", path]) ∧
    (UploadPipeline executeCommand' p path).1 = (UploadPipeline executeCommand p path).1 ∧
    (UploadPipeline executeCommand p path).2 =
      (executeCommand "buildkite-agent" (UploadPipeline executeCommand p path).1).2 := by
  have key := UploadPipeline_eq
  rw [key executeCommand, key executeCommand']
  refine ⟨?_, rfl, rfl⟩
  cases p.Interpolation <;> rfl

/-- C9: `DetermineSteps` follows `Diff`, which always returns.  When `Diff` gives
no changed path, `DetermineSteps` returns the `nil` step list and no error, for
every glob matcher and every watch rule; when `Diff` fails, it returns that error
and the `nil` step list; otherwise it returns what `StepsToTrigger` returns on the
changed paths and the watch rules. -/
theorem DetermineSteps_spec (executeCommand : CommandRunner) (glob : GlobMatcher)
    (p : Plugin) :
    ((∃ paths, Diff executeCommand p.Diff = .returns (some paths, none)) ∨
      ∃ e, Diff executeCommand p.Diff = .returns (none, some e)) ∧
    (Diff executeCommand p.Diff = .returns (some [], none) →
      DetermineSteps executeCommand glob p = .returns (none, none)) ∧
    (∀ r e, Diff executeCommand p.Diff = .returns (r, some e) →
      DetermineSteps executeCommand glob p = .returns (none, some e)) ∧
    (∀ paths, paths ≠ [] → Diff executeCommand p.Diff = .returns (some paths, none) →
      DetermineSteps executeCommand glob p = .returns (StepsToTrigger glob paths p.Watch)) := by
  refine ⟨Diff_cases executeCommand p.Diff, ?_, ?_, ?_⟩
  · intro h
    simp [DetermineSteps, h, sliceLen]
  · intro r e h
    simp [DetermineSteps, h]
  · intro paths hne h
    have hlen : ¬ paths.length < 1 := by
      cases paths with
      | nil => exact absurd rfl hne
      | cons a as => simp
    simp only [DetermineSteps, h, sliceLen, hlen, if_false, Option.getD_some]
    rcases StepsToTrigger_cases glob paths p.Watch with ⟨r, hr⟩ | ⟨e, hr⟩ <;> rw [hr]

/-- C9 (instance): an empty diff gives `nil` and no error although the only
pattern fails on every file; a failing diff command gives its error; the diff of
`TestDetermineSteps` gives the step of the rule. -/
theorem DetermineSteps_spec_witness :
    Diff echoRunner "echo" = .returns (some [], none) ∧
    DetermineSteps echoRunner globModel.failAll
        {Diff := "echo", Watch := [⟨["*["], {Trigger := "txt"}⟩]} = .returns (none, none) ∧
    StepsToTrigger globModel.failAll ["text.txt"] [⟨["*["], {Trigger := "txt"}⟩]
      = (none, some "path matching failed: syntax error in pattern") ∧
    DetermineSteps echoRunner globModel.failAll
        {Diff := "git diff --name-only HEAD~1", Watch := [⟨["*["], {Trigger := "txt"}⟩]}
      = .returns (none, some "diff failed: command git failed") ∧
    DetermineSteps echoRunner globModel
        {Diff := "echo foo-service/config.yaml",
         Watch := [⟨["foo-service/"],
           {Trigger := "foo-service-pipeline", Build := {Message := "build message"}}⟩]}
      = .returns (some
          [{Trigger := "foo-service-pipeline", Build := {Message := "build message"}}], none) :=
  ⟨by decide,
   (DetermineSteps_spec echoRunner globModel.failAll
     {Diff := "echo", Watch := [⟨["*["], {Trigger := "txt"}⟩]}).2.1 (by decide),
   by decide,
   (DetermineSteps_spec echoRunner globModel.failAll
     {Diff := "git diff --name-only HEAD~1", Watch := [⟨["*["], {Trigger := "txt"}⟩]}).2.2.1
     none _ (by decide),
   ((DetermineSteps_spec echoRunner globModel
     {Diff := "echo foo-service/config.yaml",
      Watch := [⟨["foo-service/"],
        {Trigger := "foo-service-pipeline", Build := {Message := "build message"}}⟩]}).2.2.2
     ["foo-service/config.yaml"] (by decide) (by decide)).trans (by decide)⟩

/-! ## Further lemmas on `dedupSteps` and on the scan -/

theorem dedupLoop_spec (unique steps : List Step) :
    ∃ t, dedupLoop unique steps = unique ++ t ∧ t.Sublist steps ∧
      ∀ x, x ∈ t ↔ x ∈ steps ∧ x ∉ unique := by
  induction steps generalizing unique with
  | nil => exact ⟨[], by simp [dedupLoop], List.Sublist.refl _, by simp⟩
  | cons p ps ih =>
    by_cases hp : p ∈ unique
    · obtain ⟨t, h1, h2, h3⟩ := ih unique
      refine ⟨t, by rw [dedupLoop_cons_mem _ _ _ hp, h1], h2.cons p, fun x => ?_⟩
      rw [h3, List.mem_cons]
      constructor
      · rintro ⟨hx, hu⟩
        exact ⟨Or.inr hx, hu⟩
      · rintro ⟨hx | hx, hu⟩
        · exact absurd (hx ▸ hp) hu
        · exact ⟨hx, hu⟩
    · obtain ⟨t, h1, h2, h3⟩ := ih (unique ++ [p])
      refine ⟨p :: t, ?_, h2.cons₂ p, fun x => ?_⟩
      · rw [dedupLoop_cons_not_mem _ _ _ hp, h1]
        simp
      · rw [List.mem_cons, h3, List.mem_cons, List.mem_append, List.mem_singleton]
        constructor
        · rintro (hx | ⟨hx, hu⟩)
          · exact ⟨Or.inl hx, hx ▸ hp⟩
          · exact ⟨Or.inr hx, fun h => hu (Or.inl h)⟩
        · rintro ⟨hx | hx, hu⟩
          · exact Or.inl hx
          · by_cases hxp : x = p
            · exact Or.inl hxp
            · exact Or.inr ⟨hx, fun h => h.elim hu hxp⟩

theorem dedupLoop_append (unique xs ys : List Step) :
    dedupLoop unique (xs ++ ys) = dedupLoop (dedupLoop unique xs) ys := by
  induction xs generalizing unique with
  | nil => rfl
  | cons p ps ih =>
    by_cases hp : p ∈ unique
    · rw [List.cons_append, dedupLoop_cons_mem _ _ _ hp, dedupLoop_cons_mem _ _ _ hp, ih]
    · rw [List.cons_append, dedupLoop_cons_not_mem _ _ _ hp, dedupLoop_cons_not_mem _ _ _ hp, ih]

theorem mem_dedupSteps (steps : List Step) (x : Step) :
    x ∈ dedupSteps steps ↔ x ∈ steps := by
  obtain ⟨t, h1, _, h3⟩ := dedupLoop_spec [] steps
  unfold dedupSteps
  rw [h1, List.nil_append, h3]
  simp

theorem dedupSteps_sublist (steps : List Step) : (dedupSteps steps).Sublist steps := by
  obtain ⟨t, h1, h2, _⟩ := dedupLoop_spec [] steps
  unfold dedupSteps
  rw [h1, List.nil_append]
  exact h2

theorem mem_matchingSteps (glob : GlobMatcher) (files : List String)
    (watch : List WatchConfig) (s : Step) :
    s ∈ matchingSteps glob files watch ↔
      ∃ w ∈ watch, w.Step = s ∧
        ∃ p ∈ w.Paths, ∃ f ∈ files, (matchPath glob p f).1 = true := by
  simp only [matchingSteps, List.mem_map, List.mem_filter, ruleMatches, patternMatches,
    List.any_eq_true]
  constructor
  · rintro ⟨w, ⟨hw, p, hp, f, hf, hm⟩, rfl⟩
    exact ⟨w, hw, rfl, p, hp, f, hf, hm⟩
  · rintro ⟨w, hw, rfl, p, hp, f, hf, hm⟩
    exact ⟨w, ⟨hw, p, hp, f, hf, hm⟩, rfl⟩

theorem scanPaths_of_no_error (glob : GlobMatcher) (files : List String) (step : Step)
    (steps : List Step) (ps : List String)
    (h : ∀ p ∈ ps, ∀ f ∈ files, (matchPath glob p f).2 = none) :
    ∃ r, scanPaths glob files step steps ps = .ok r := by
  induction ps generalizing steps with
  | nil => exact ⟨steps, rfl⟩
  | cons p ps ih =>
    have hp := scanFiles_of_no_error glob p files (h p (List.mem_cons_self p ps))
    have ih' := fun st => ih st (fun q hq => h q (List.mem_cons_of_mem p hq))
    simp only [scanPaths, hp]
    cases patternMatches glob files p
    · exact ih' steps
    · exact ih' (steps ++ [step])

theorem scanWatch_of_no_error (glob : GlobMatcher) (files : List String)
    (steps : List Step) (watch : List WatchConfig)
    (h : ∀ w ∈ watch, ∀ p ∈ w.Paths, ∀ f ∈ files, (matchPath glob p f).2 = none) :
    ∃ r, scanWatch glob files steps watch = .ok r := by
  induction watch generalizing steps with
  | nil => exact ⟨steps, rfl⟩
  | cons w ws ih =>
    obtain ⟨r, hr⟩ := scanPaths_of_no_error glob files w.Step steps w.Paths
      (h w (List.mem_cons_self w ws))
    simp only [scanWatch, hr]
    exact ih r (fun v hv => h v (List.mem_cons_of_mem w hv))

theorem scanPaths_nil_files (glob : GlobMatcher) (steps : List Step) (step : Step)
    (ps : List String) : scanPaths glob [] step steps ps = .ok steps := by
  induction ps with
  | nil => rfl
  | cons p ps ih => simpa [scanPaths, scanFiles] using ih

theorem scanWatch_nil_files (glob : GlobMatcher) (steps : List Step)
    (watch : List WatchConfig) : scanWatch glob [] steps watch = .ok steps := by
  induction watch with
  | nil => rfl
  | cons w ws ih => simpa [scanWatch, scanPaths_nil_files] using ih

/-! ## `dedupSteps` and membership in the result: the properties -/

/-- C13: `dedupSteps` returns a subsequence of its input, in input order, that
holds every input step once; an occurrence of a step with no equal step before it
is kept at its place, between what is kept of the steps before it and what is
kept of the steps after it, so a step is dropped only if an equal step occurs
earlier. -/
theorem dedupSteps_first_occurrences (steps : List Step) :
    (dedupSteps steps).Sublist steps ∧
    (dedupSteps steps).Nodup ∧
    (∀ x, x ∈ steps → x ∈ dedupSteps steps) ∧
    (∀ pre x post, steps = pre ++ x :: post → x ∉ pre →
      ∃ rest, dedupSteps steps = dedupSteps pre ++ x :: rest ∧ rest.Sublist post) := by
  refine ⟨dedupSteps_sublist steps, dedupLoop_nodup [] steps List.nodup_nil,
    fun x hx => (mem_dedupSteps steps x).2 hx, ?_⟩
  rintro pre x post rfl hx
  have hx' : x ∉ dedupLoop [] pre := fun h => hx ((mem_dedupSteps pre x).1 h)
  obtain ⟨t, h1, h2, _⟩ := dedupLoop_spec (dedupLoop [] pre ++ [x]) post
  refine ⟨t, ?_, h2⟩
  unfold dedupSteps
  rw [dedupLoop_append, dedupLoop_cons_not_mem _ _ _ hx', h1]
  simp

/-- C14: when no pattern evaluation fails, `StepsToTrigger` succeeds; and whenever
it succeeds, a step occurs in the result iff some watch rule with that step has a
pattern that `matchPath` matches against a changed file.  With no changed file or
no rule the result is empty, with no error. -/
theorem StepsToTrigger_mem (glob : GlobMatcher) (files : List String)
    (watch : List WatchConfig) :
    ((∀ w ∈ watch, ∀ p ∈ w.Paths, ∀ f ∈ files, (matchPath glob p f).2 = none) →
      ∃ r, StepsToTrigger glob files watch = (some r, none)) ∧
    (∀ r, StepsToTrigger glob files watch = (some r, none) →
      ∀ s, s ∈ r ↔ ∃ w ∈ watch, w.Step = s ∧
        ∃ p ∈ w.Paths, ∃ f ∈ files, (matchPath glob p f).1 = true) ∧
    StepsToTrigger glob [] watch = (some [], none) ∧
    StepsToTrigger glob files [] = (some [], none) := by
  refine ⟨fun h => ?_, fun r h s => ?_, ?_, rfl⟩
  · obtain ⟨r, hr⟩ := scanWatch_of_no_error glob files [] watch h
    exact ⟨dedupSteps r, by simp [StepsToTrigger, hr]⟩
  · rw [StepsToTrigger_ok glob files watch r (by rw [h]), mem_dedupSteps, mem_matchingSteps]
  · simp [StepsToTrigger, scanWatch_nil_files]
    rfl

/-- C14 (instance): the rules and files of `TestPipelinesToTriggerGetsListOfPipelines`:
no evaluation fails, the step of the second rule is in the result and the step of
the third rule, whose pattern matches no file, is not. -/
theorem StepsToTrigger_mem_witness :
    (∃ r, StepsToTrigger globModel testFiles testWatch = (some r, none)) ∧
    (({Trigger := "service-2"} : Step) ∈
        ([{Trigger := "service-1"}, {Trigger := "service-2"}, {Trigger := "service-4"}] :
          List Step) ↔
      ∃ w ∈ testWatch, w.Step = {Trigger := "service-2"} ∧
        ∃ p ∈ w.Paths, ∃ f ∈ testFiles, (matchPath globModel p f).1 = true) ∧
    ¬ ∃ w ∈ testWatch, w.Step = {Trigger := "service-3"} ∧
        ∃ p ∈ w.Paths, ∃ f ∈ testFiles, (matchPath globModel p f).1 = true :=
  ⟨(StepsToTrigger_mem globModel testFiles testWatch).1 (by decide),
   (StepsToTrigger_mem globModel testFiles testWatch).2.1 _ (by decide) _,
   fun h => absurd (((StepsToTrigger_mem globModel testFiles testWatch).2.1
     [{Trigger := "service-1"}, {Trigger := "service-2"}, {Trigger := "service-4"}] (by decide)
     {Trigger := "service-3"}).2 h) (by decide)⟩

/-- C15: when `StepsToTrigger` succeeds on `files` and on `files ++ extra`, every
step returned for `files` is returned for `files ++ extra`. -/
theorem StepsToTrigger_mono (glob : GlobMatcher) (files extra : List String)
    (watch : List WatchConfig) (r r' : List Step)
    (h : StepsToTrigger glob files watch = (some r, none))
    (h' : StepsToTrigger glob (files ++ extra) watch = (some r', none)) :
    ∀ s, s ∈ r → s ∈ r' := by
  intro s hs
  rw [StepsToTrigger_ok glob files watch r (by rw [h]), mem_dedupSteps,
    mem_matchingSteps] at hs
  rw [StepsToTrigger_ok glob (files ++ extra) watch r' (by rw [h']), mem_dedupSteps,
    mem_matchingSteps]
  obtain ⟨w, hw, hws, p, hp, f, hf, hm⟩ := hs
  exact ⟨w, hw, hws, p, hp, f, List.mem_append_left extra hf, hm⟩

/-- C15 (instance): with the file `watch-path-5/x` added to the files of the test,
the three steps are still returned, after the step of the third rule. -/
theorem StepsToTrigger_mono_witness :
    StepsToTrigger globModel testFiles testWatch
      = (some [{Trigger := "service-1"}, {Trigger := "service-2"}, {Trigger := "service-4"}],
          none) ∧
    StepsToTrigger globModel (testFiles ++ ["watch-path-5/x"]) testWatch
      = (some [{Trigger := "service-1"}, {Trigger := "service-2"}, {Trigger := "service-3"},
          {Trigger := "service-4"}], none) ∧
    ∀ s, s ∈ ([{Trigger := "service-1"}, {Trigger := "service-2"}, {Trigger := "service-4"}] :
          List Step) →
      s ∈ ([{Trigger := "service-1"}, {Trigger := "service-2"}, {Trigger := "service-3"},
          {Trigger := "service-4"}] : List Step) :=
  ⟨by decide, by decide,
   StepsToTrigger_mono globModel testFiles ["watch-path-5/x"] testWatch _ _
     (by decide) (by decide)⟩

/-- C16: `dedupSteps` is idempotent, and it returns unchanged a list that has no
two equal entries. -/
theorem dedupSteps_idempotent (steps : List Step) :
    dedupSteps (dedupSteps steps) = dedupSteps steps ∧
    (steps.Nodup → dedupSteps steps = steps) := by
  have key : ∀ xs : List Step, xs.Nodup → dedupSteps xs = xs := by
    intro xs hn
    unfold dedupSteps
    rw [dedupLoop_of_nodup [] xs (by simpa using hn), List.nil_append]
  exact ⟨key _ (dedupLoop_nodup [] steps List.nodup_nil), key steps⟩

/-! ## The split of the diff command -/

theorem stringsJoin_singleton (a sep : String) : stringsJoin [a] sep = a := rfl

theorem stringsJoin_cons_cons (a b : String) (rest : List String) (sep : String) :
    stringsJoin (a :: b :: rest) sep = a ++ sep ++ stringsJoin (b :: rest) sep := by
  rw [stringsJoin]

theorem stringsJoin_splitOnChar (sep : Char) (cs : List Char) :
    stringsJoin ((splitOnChar sep cs).map String.mk) (String.mk [sep]) = String.mk cs := by
  induction cs with
  | nil => rfl
  | cons c cs ih =>
    by_cases h : c = sep
    · rcases hsp : splitOnChar sep cs with _ | ⟨w, ws⟩
      · exact absurd hsp (splitOnChar_ne_nil sep cs)
      · rw [hsp] at ih
        simp only [splitOnChar, h, if_true, hsp, List.map_cons] at ih ⊢
        rw [stringsJoin_cons_cons, ih]
        rfl
    · obtain ⟨w, ws, h1, h2⟩ := splitOnChar_cons_ne sep c cs h
      rw [h1] at ih
      rw [h2]
      cases ws with
      | nil =>
        simp only [List.map_cons, List.map_nil, stringsJoin_singleton] at ih ⊢
        have hw : w = cs := congrArg String.data ih
        rw [hw]
      | cons v vs =>
        simp only [List.map_cons] at ih ⊢
        rw [stringsJoin_cons_cons] at ih ⊢
        have hc : String.mk (c :: cs) = String.mk [c] ++ String.mk cs := rfl
        rw [hc, ← ih]
        apply String.ext
        simp

/-- C17: for every command string, the empty one included, the split at single
blanks gives a first piece, the program, and the list of the other pieces, the
arguments, so that `Diff` does not panic on the index; and the program and the
arguments joined by single blanks are the command string. -/
theorem Diff_split_total (executeCommand : CommandRunner) (command : String) :
    (∃ cmd args, stringsSplit command ' ' = cmd :: args ∧
      stringsJoin (cmd :: args) " " = command) ∧
    Diff executeCommand command ≠ .panics ∧
    stringsSplit "" ' ' = [""] := by
  refine ⟨?_, ?_, rfl⟩
  · rcases hs : stringsSplit command ' ' with _ | ⟨cmd, args⟩
    · exact absurd hs (stringsSplit_ne_nil command ' ')
    · refine ⟨cmd, args, rfl, ?_⟩
      rw [← hs]
      exact stringsJoin_splitOnChar ' ' command.data
  · rcases Diff_cases executeCommand command with ⟨paths, h⟩ | ⟨e, h⟩ <;> rw [h] <;> simp

/-! ## Lemmas on the model of the glob library -/

theorem starLoop_no_error (k : List Char → Bool × Option String)
    (hk : ∀ n, (k n).2 = none) (n : List Char) : (starLoop k n).2 = none := by
  induction n with
  | nil => exact hk []
  | cons d n ih =>
    have h := hk (d :: n)
    rcases hd : k (d :: n) with ⟨b, _ | e⟩
    · cases b
      · simpa [starLoop, hd] using ih
      · simp [starLoop, hd]
    · rw [hd] at h
      simp at h

theorem matchTokens_no_error (ts : List GlobToken) (h : GlobToken.bad ∉ ts)
    (n : List Char) : (matchTokens ts n).2 = none := by
  induction ts generalizing n with
  | nil => rfl
  | cons t ts ih =>
    have ih' := ih (fun hb => h (List.mem_cons_of_mem t hb))
    cases t with
    | bad => exact absurd (List.mem_cons_self _ _) h
    | lit c =>
      cases n with
      | nil => rfl
      | cons d n' =>
        by_cases hc : c = d
        · simpa [matchTokens, hc] using ih' n'
        · simp [matchTokens, hc]
    | any =>
      cases n with
      | nil => rfl
      | cons d n' => simpa [matchTokens] using ih' n'
    | cls m =>
      cases n with
      | nil => rfl
      | cons d n' =>
        by_cases hc : d ∈ m
        · simpa [matchTokens, hc] using ih' n'
        · simp [matchTokens, hc]
    | star => exact starLoop_no_error _ ih' n

theorem starLoop_of_suffix (k : List Char → Bool × Option String)
    (hk : ∀ n, (k n).2 = none) (s : List Char) (hs : k s = (true, none)) (b : List Char) :
    starLoop k (b ++ s) = (true, none) := by
  induction b with
  | nil =>
    cases s with
    | nil => simpa [starLoop] using hs
    | cons d n => simp [starLoop, hs]
  | cons c b ih =>
    have h := hk (c :: (b ++ s))
    rcases hd : k (c :: (b ++ s)) with ⟨v, _ | e⟩
    · cases v
      · simpa [starLoop, hd] using ih
      · simp [starLoop, hd]
    · rw [hd] at h
      simp at h

theorem splitOnChar_of_not_mem (sep : Char) (d : List Char) (h : sep ∉ d) :
    splitOnChar sep d = [d] := by
  induction d with
  | nil => rfl
  | cons c d ih =>
    have hc : c ≠ sep := fun hc => h (hc ▸ List.mem_cons_self c d)
    have ih' := ih (fun hm => h (List.mem_cons_of_mem c hm))
    simp [splitOnChar, hc, ih']

theorem splitOnChar_append_sep (sep : Char) (d rest : List Char) (h : sep ∉ d) :
    splitOnChar sep (d ++ sep :: rest) = d :: splitOnChar sep rest := by
  induction d with
  | nil => simp [splitOnChar]
  | cons c d ih =>
    have hc : c ≠ sep := fun hc => h (hc ▸ List.mem_cons_self c d)
    have ih' := ih (fun hm => h (List.mem_cons_of_mem c hm))
    simp [splitOnChar, hc, ih']

theorem splitOnChar_of_mem (sep : Char) (cs : List Char) (h : sep ∈ cs) :
    ∃ a b rest, splitOnChar sep cs = a :: b :: rest := by
  induction cs with
  | nil => simp at h
  | cons c cs ih =>
    by_cases hc : c = sep
    · rcases hsp : splitOnChar sep cs with _ | ⟨w, ws⟩
      · exact absurd hsp (splitOnChar_ne_nil sep cs)
      · exact ⟨[], w, ws, by simp [splitOnChar, hc, hsp]⟩
    · have hm : sep ∈ cs := by
        rcases List.mem_cons.1 h with h' | h'
        · exact absurd h'.symm hc
        · exact h'
      obtain ⟨a, b, rest, hsp⟩ := ih hm
      exact ⟨c :: a, b, rest, by simp [splitOnChar, hc, hsp]⟩

theorem matchTokens_star_txt (b : List Char) :
    matchTokens (tokenize none ['*', '.', 't', 'x', 't']) (b ++ ['.', 't', 'x', 't'])
      = (true, none) := by
  have ht : tokenize none ['*', '.', 't', 'x', 't']
      = [GlobToken.star, GlobToken.lit '.', GlobToken.lit 't', GlobToken.lit 'x',
          GlobToken.lit 't'] := by decide
  rw [ht]
  show starLoop (matchTokens [GlobToken.lit '.', GlobToken.lit 't', GlobToken.lit 'x',
    GlobToken.lit 't']) (b ++ ['.', 't', 'x', 't']) = (true, none)
  exact starLoop_of_suffix _ (matchTokens_no_error _ (by decide)) _ (by decide) b

theorem globModel_star_txt (b : List Char) (hb : '/' ∉ b) :
    globModel "*.txt" (String.mk (b ++ ['.', 't', 'x', 't'])) = (true, none) := by
  have hseg : '/' ∉ b ++ ['.', 't', 'x', 't'] := by
    intro h
    rcases List.mem_append.1 h with h | h
    · exact hb h
    · exact absurd h (by decide)
  have hp : splitOnChar '/' "*.txt".data = [['*', '.', 't', 'x', 't']] := by decide
  unfold globModel
  rw [hp]
  show matchSegments _ (splitOnChar '/' (b ++ ['.', 't', 'x', 't'])) = _
  rw [splitOnChar_of_not_mem '/' _ hseg]
  have hne : (['*', '.', 't', 'x', 't'] : List Char) ≠ ['*', '*'] := by decide
  simp only [matchSegments, hne, if_false, matchTokens_star_txt]
  rfl

theorem matchPath_of_glob_match (glob : GlobMatcher) (p f : String) (h : '*' ∈ p.data)
    (hg : glob p f = (true, none)) : matchPath glob p f = (true, none) := by
  simp [matchPath, (stringsContains_star p).2 h, hg]

theorem StepsToTrigger_single (glob : GlobMatcher) (p f : String) (step : Step)
    (h : matchPath glob p f = (true, none)) :
    StepsToTrigger glob [f] [⟨[p], step⟩] = (some [step], none) := by
  simp [StepsToTrigger, scanWatch, scanPaths, scanFiles, h, dedupSteps, dedupLoop, isDuplicate]

/-! ## The order of the changed files -/

theorem matchSegments_no_error (ps : List (List Char))
    (h : ∀ seg ∈ ps, GlobToken.bad ∉ tokenize none seg) (ns : List (List Char)) :
    (matchSegments ps ns).2 = none := by
  induction ps generalizing ns with
  | nil => rfl
  | cons p ps ih =>
    have ih' := ih (fun seg hs => h seg (List.mem_cons_of_mem p hs))
    by_cases hp : p = ['*', '*']
    · by_cases he : ps.isEmpty = true <;> simp [matchSegments, hp, he]
    · cases ns with
      | nil => simp [matchSegments, hp]
      | cons n ns' =>
        have hn := matchTokens_no_error (tokenize none p) (h p (List.mem_cons_self p ps)) n
        rcases hm : matchTokens (tokenize none p) n with ⟨v, _ | e⟩
        · cases v
          · simp [matchSegments, hp, hm]
          · simpa [matchSegments, hp, hm] using ih' ns'
        · rw [hm] at hn
          simp at hn

theorem globModel_error (p f : String) :
    (globModel p f).2 = if malformed p.data then some "syntax error in pattern" else none := by
  unfold globModel
  by_cases hm : malformed p.data = true
  · simp [hm]
  · simp only [hm, if_false, Bool.false_eq_true]
    apply matchSegments_no_error
    intro seg hs hb
    apply hm
    unfold malformed
    rw [List.any_eq_true]
    exact ⟨seg, hs, by simpa using hb⟩

theorem globModel_error_indep (p f f' : String) :
    (globModel p f).2 = (globModel p f').2 := by
  rw [globModel_error, globModel_error]

/-- C3: the outcome of `StepsToTrigger` does not depend on the order of the changed
files.  For two changed-file lists that are permutations of one another it
returns the same result, the same steps in the same order or the same error, with
the glob matcher of the spec, and with every matcher whose failure on a pattern
does not depend on the file (a malformed pattern fails on every name). -/
theorem StepsToTrigger_perm (files files' : List String) (watch : List WatchConfig)
    (hp : files.Perm files') :
    StepsToTrigger globModel files watch = StepsToTrigger globModel files' watch ∧
    ∀ glob : GlobMatcher, (∀ p f f', (glob p f).2 = (glob p f').2) →
      StepsToTrigger glob files watch = StepsToTrigger glob files' watch := by
  have key : ∀ glob : GlobMatcher, (∀ p f f', (glob p f).2 = (glob p f').2) →
      StepsToTrigger glob files watch = StepsToTrigger glob files' watch := by
    intro glob hg
    unfold StepsToTrigger
    rw [scanWatch_congr glob files files' (fun p => scanFiles_perm glob hg p files files' hp)]
  exact ⟨key globModel globModel_error_indep, key⟩

/-- C3 (instance): rules with glob patterns on three files and on the same files
in reverse order give the same two steps; with a malformed pattern in the second
rule both orders give the same error, although the first rule matches. -/
theorem StepsToTrigger_perm_witness :
    List.Perm globFiles globFiles.reverse ∧
    StepsToTrigger globModel globFiles globWatch
      = (some [{Trigger := "txt"}, {Trigger := "docs"}], none) ∧
    StepsToTrigger globModel globFiles.reverse globWatch
      = (some [{Trigger := "txt"}, {Trigger := "docs"}], none) ∧
    List.Perm ["text.txt", "axq"] ["axq", "text.txt"] ∧
    StepsToTrigger globModel ["text.txt", "axq"] malformedWatch
      = (none, some "path matching failed: syntax error in pattern") ∧
    StepsToTrigger globModel ["axq", "text.txt"] malformedWatch
      = (none, some "path matching failed: syntax error in pattern") :=
  ⟨(List.reverse_perm globFiles).symm,
   by decide,
   ((StepsToTrigger_perm globFiles globFiles.reverse globWatch
     (List.reverse_perm globFiles).symm).1).symm.trans (by decide),
   List.Perm.swap _ _ _,
   by decide,
   ((StepsToTrigger_perm ["text.txt", "axq"] ["axq", "text.txt"] malformedWatch
     (List.Perm.swap _ _ _)).1).symm.trans (by decide)⟩

/-! ## The changed paths of the diff command -/

theorem unicodeIsSpace_iff (c : Char) : unicodeIsSpace c = true ↔ IsWhiteSpace c := by
  unfold unicodeIsSpace IsWhiteSpace
  simp only [Bool.or_eq_true, Bool.and_eq_true, decide_eq_true_eq, List.mem_cons,
    List.mem_singleton, List.not_mem_nil, or_false]
  tauto

theorem trim_decompose (p : Char → Bool) (l : List Char) :
    ∃ pre post, l = pre ++ (l.dropWhile p).rdropWhile p ++ post ∧
      (∀ c ∈ pre, p c = true) ∧ (∀ c ∈ post, p c = true) := by
  refine ⟨l.takeWhile p, (l.dropWhile p).rtakeWhile p, ?_,
    fun c hc => List.mem_takeWhile_imp hc, fun c hc => List.mem_rtakeWhile_imp hc⟩
  have h1 : ∀ d : List Char, d.rdropWhile p ++ d.rtakeWhile p = d := by
    intro d
    unfold List.rdropWhile List.rtakeWhile
    rw [← List.reverse_append, List.takeWhile_append_dropWhile, List.reverse_reverse]
  rw [List.append_assoc, h1, List.takeWhile_append_dropWhile]

theorem trim_head (p : Char → Bool) (l : List Char) (c : Char)
    (h : ((l.dropWhile p).rdropWhile p).head? = some c) : p c = false := by
  have hpre : (l.dropWhile p).rdropWhile p <+: l.dropWhile p := List.rdropWhile_prefix p _
  obtain ⟨s, hs⟩ := hpre
  have hd := List.head?_dropWhile_not p l
  rcases hc : (l.dropWhile p).rdropWhile p with _ | ⟨x, t⟩
  · rw [hc] at h
    simp at h
  · rw [hc] at h hs
    simp at h
    rw [← hs] at hd
    simpa [h] using hd

theorem trim_last (p : Char → Bool) (l : List Char) (c : Char)
    (h : ((l.dropWhile p).rdropWhile p).getLast? = some c) : p c = false := by
  obtain ⟨ys, hys⟩ := List.getLast?_eq_some_iff.1 h
  have hne : (l.dropWhile p).rdropWhile p ≠ [] := by
    rw [hys]
    simp
  have hl := List.rdropWhile_last_not p (l.dropWhile p) hne
  have hc : ((l.dropWhile p).rdropWhile p).getLast hne = c := by
    simp [hys]
  rw [hc] at hl
  simpa using hl

theorem filter_map_mk (ls : List (List Char)) :
    (ls.map String.mk).filter (fun l => decide (l ≠ ""))
      = (ls.filter (fun l => !l.isEmpty)).map String.mk := by
  induction ls with
  | nil => rfl
  | cons l ls ih =>
    cases l with
    | nil =>
      have h : String.mk [] = "" := rfl
      simpa [List.filter_cons, h] using ih
    | cons c cs =>
      have h : String.mk (c :: cs) ≠ "" := fun he => by
        have := congrArg String.data he
        simp at this
      simpa [List.filter_cons, h] using ih

/-- C10: when the diff command succeeds, its output is white space, a text with no
white space at its start or end, and white space again; that text is a sequence of
lines without a newline joined by newlines, and `Diff` returns the lines that are
not empty, in their order, and no error.  So no returned path is empty and none
contains a newline; a line inside the text is dropped only if it is empty. -/
theorem Diff_changed_paths (executeCommand : CommandRunner) (command cmd : String)
    (args : List String) (output : String)
    (hs : stringsSplit command ' ' = cmd :: args)
    (h : executeCommand cmd args = (output, none)) :
    ∃ (pre post : List Char) (lines : List String),
      output.data = pre ++ (stringsJoin lines "\n").data ++ post ∧
      (∀ c ∈ pre, IsWhiteSpace c) ∧ (∀ c ∈ post, IsWhiteSpace c) ∧
      (∀ c, (stringsJoin lines "\n").data.head? = some c → ¬ IsWhiteSpace c) ∧
      (∀ c, (stringsJoin lines "\n").data.getLast? = some c → ¬ IsWhiteSpace c) ∧
      (∀ l ∈ lines, '\n' ∉ l.data) ∧
      Diff executeCommand command
        = .returns (some (lines.filter (fun l => decide (l ≠ ""))), none) ∧
      (∀ path ∈ lines.filter (fun l => decide (l ≠ "")), path ≠ "" ∧ '\n' ∉ path.data) ∧
      lines.filter (fun l => decide (l ≠ "")) = nonEmptyLines (stringsTrimSpace output) := by
  obtain ⟨pre, post, hdec, hpre, hpost⟩ := trim_decompose unicodeIsSpace output.data
  have hjoin : stringsJoin ((splitOnChar '\n' (stringsTrimSpace output).data).map String.mk)
      "\n" = stringsTrimSpace output :=
    stringsJoin_splitOnChar '\n' (stringsTrimSpace output).data
  have hlines : ∀ l ∈ (splitOnChar '\n' (stringsTrimSpace output).data).map String.mk,
      '\n' ∉ l.data := by
    intro l hl
    obtain ⟨cs, hcs, rfl⟩ := List.mem_map.1 hl
    exact splitOnChar_not_mem '\n' _ cs hcs
  refine ⟨pre, post, (splitOnChar '\n' (stringsTrimSpace output).data).map String.mk,
    ?_, fun c hc => (unicodeIsSpace_iff c).1 (hpre c hc),
    fun c hc => (unicodeIsSpace_iff c).1 (hpost c hc), ?_, ?_, hlines, ?_, ?_, ?_⟩
  · rw [hjoin]
    exact hdec
  · intro c hc hw
    rw [hjoin] at hc
    have := trim_head unicodeIsSpace output.data c hc
    rw [(unicodeIsSpace_iff c).2 hw] at this
    simp at this
  · intro c hc hw
    rw [hjoin] at hc
    have := trim_last unicodeIsSpace output.data c hc
    rw [(unicodeIsSpace_iff c).2 hw] at this
    simp at this
  · rw [filter_map_mk]
    simp [Diff, hs, h, stringsFieldsFunc_newline, nonEmptyLines]
  · intro path hp
    obtain ⟨hp1, hp2⟩ := List.mem_filter.1 hp
    exact ⟨by simpa using hp2, hlines path hp1⟩
  · rw [filter_map_mk]
    rfl

/-- C10 (instance): the output of `paddedDiffCommand` is the white space `\n\t`,
four lines joined by newlines, and the white space ` \n`; `Diff` returns the three
lines that are not empty, the line of one blank among them. -/
theorem Diff_changed_paths_witness :
    stringsSplit paddedDiffCommand ' '
      = "echo" :: ["\n\tservices/foo/serverless.yml\n\n", "\nREADME.md", "\n"] ∧
    echoRunner "echo" ["\n\tservices/foo/serverless.yml\n\n", "\nREADME.md", "\n"]
      = ("\n\tservices/foo/serverless.yml\n\n \nREADME.md \n", none) ∧
    "\n\tservices/foo/serverless.yml\n\n \nREADME.md \n".data
      = "\n\t".data ++
        (stringsJoin ["services/foo/serverless.yml", "", " ", "README.md"] "\n").data ++
        " \n".data ∧
    Diff echoRunner paddedDiffCommand
      = .returns (some ["services/foo/serverless.yml", " ", "README.md"], none) ∧
    ∃ (pre post : List Char) (lines : List String),
      "\n\tservices/foo/serverless.yml\n\n \nREADME.md \n".data
        = pre ++ (stringsJoin lines "\n").data ++ post ∧
      (∀ c, (stringsJoin lines "\n").data.head? = some c → ¬ IsWhiteSpace c) ∧
      (∀ c, (stringsJoin lines "\n").data.getLast? = some c → ¬ IsWhiteSpace c) ∧
      Diff echoRunner paddedDiffCommand
        = .returns (some (lines.filter (fun l => decide (l ≠ ""))), none) :=
  ⟨by decide, by decide, by decide, by decide,
   match Diff_changed_paths echoRunner paddedDiffCommand "echo"
     ["\n\tservices/foo/serverless.yml\n\n", "\nREADME.md", "\n"]
     "\n\tservices/foo/serverless.yml\n\n \nREADME.md \n" (by decide) (by decide) with
   | ⟨pre, post, lines, h1, _, _, h4, h5, _, h7, _⟩ => ⟨pre, post, lines, h1, h4, h5, h7⟩⟩

/-! ## Glob patterns -/

theorem matchSegments_length (ps ns : List (List Char)) (hp : ['*', '*'] ∉ ps)
    (h : matchSegments ps ns = (true, none)) : ns.length = ps.length := by
  induction ps generalizing ns with
  | nil =>
    cases ns with
    | nil => rfl
    | cons n ns' => simp [matchSegments] at h
  | cons p ps ih =>
    have hne : p ≠ ['*', '*'] := fun he => hp (he ▸ List.mem_cons_self p ps)
    have hp' : ['*', '*'] ∉ ps := fun hm => hp (List.mem_cons_of_mem p hm)
    cases ns with
    | nil => simp [matchSegments, hne] at h
    | cons n ns' =>
      rcases hm : matchTokens (tokenize none p) n with ⟨v, _ | e⟩
      · cases v
        · simp [matchSegments, hne, hm] at h
        · simp only [matchSegments, hne, hm, if_false] at h
          simp [ih ns' hp' h]
      · simp [matchSegments, hne, hm] at h

theorem splitOnChar_underDirs (dirs : List (List Char)) (n : List Char)
    (h : ∀ d ∈ dirs, '/' ∉ d) :
    splitOnChar '/' (underDirs dirs n) = dirs ++ splitOnChar '/' n := by
  induction dirs with
  | nil => rfl
  | cons d dirs ih =>
    have ih' := ih (fun x hx => h x (List.mem_cons_of_mem d hx))
    unfold underDirs at ih' ⊢
    rw [List.foldr_cons, splitOnChar_append_sep '/' d _ (h d (List.mem_cons_self d dirs)), ih']
    rfl

theorem anySuffix_append (k : List (List Char) → Bool × Option String)
    (dirs ns : List (List Char)) (hne : ns ≠ []) (h : (k ns).1 = true) :
    anySuffix k (dirs ++ ns) = true := by
  induction dirs with
  | nil =>
    cases ns with
    | nil => exact absurd rfl hne
    | cons n ns' => simp [anySuffix, h]
  | cons d dirs ih => simp [anySuffix, ih]

theorem matchSegments_double_star_cons (q : List Char) (qs ns : List (List Char)) :
    matchSegments (['*', '*'] :: q :: qs) ns
      = (anySuffix (matchSegments (q :: qs)) ns, none) := by
  rw [matchSegments]
  simp

theorem globModel_double_star (q n : String) (dirs : List (List Char))
    (hd : ∀ d ∈ dirs, '/' ∉ d) (h : globModel q n = (true, none)) :
    globModel ("**/" ++ q) (String.mk (underDirs dirs n.data)) = (true, none) := by
  have hmal : malformed q.data = false := by
    have he := globModel_error q n
    rw [h] at he
    cases hm : malformed q.data
    · rfl
    · simp [hm] at he
  have hseg : matchSegments (splitOnChar '/' q.data) (splitOnChar '/' n.data) = (true, none) := by
    simpa [globModel, hmal] using h
  have hsplit : splitOnChar '/' ("**/" ++ q).data = ['*', '*'] :: splitOnChar '/' q.data := by
    have : ("**/" ++ q).data = ['*', '*'] ++ '/' :: q.data := by
      rw [String.data_append]
      rfl
    rw [this, splitOnChar_append_sep '/' ['*', '*'] q.data (by decide)]
  have hmal' : malformed ("**/" ++ q).data = false := by
    unfold malformed at hmal ⊢
    rw [hsplit, List.any_cons, hmal]
    decide
  rcases hq : splitOnChar '/' q.data with _ | ⟨q₀, qs⟩
  · exact absurd hq (splitOnChar_ne_nil '/' q.data)
  · unfold globModel
    simp only [hmal', if_false, Bool.false_eq_true]
    rw [hsplit, hq]
    show matchSegments _ (splitOnChar '/' (underDirs dirs n.data)) = _
    rw [splitOnChar_underDirs dirs n.data hd, matchSegments_double_star_cons,
      anySuffix_append _ dirs _ (splitOnChar_ne_nil '/' n.data) (by rw [← hq, hseg])]

theorem matchPath_glob_iff (glob : GlobMatcher) (p f : String) (h : '*' ∈ p.data)
    (he : (glob p f).2 = none) :
    (matchPath glob p f).2 = none ∧
      ((matchPath glob p f).1 = true ↔ ((glob p f).1 = true ∨ p.data <+: f.data)) := by
  have hs := (stringsContains_star p).2 h
  unfold matchPath
  rcases hg : glob p f with ⟨b, _ | e⟩
  · cases b
    · by_cases hp : stringsHasPrefix f p = true
      · simp [hs, hp, (stringsHasPrefix_iff f p).1 hp]
      · have : ¬ p.data <+: f.data := fun h' => hp ((stringsHasPrefix_iff f p).2 h')
        simp [hs, hp, this]
    · simp [hs]
  · rw [hg] at he
    simp at he

/-- C11 (counterexample): the glob matcher keeps `*` inside one segment and rejects
the path `*.txt/deep/er/file.go` for the pattern `*.txt`; through `matchPath` and
`StepsToTrigger` the pattern matches the path all the same, three directory
levels down, and yields the step of the rule. -/
theorem matchPath_star_leaves_its_segment :
    '*' ∈ "*.txt".data ∧
    globModel "*.txt" "*.txt/deep/er/file.go" = (false, none) ∧
    matchPath globModel "*.txt" "*.txt/deep/er/file.go" = (true, none) ∧
    StepsToTrigger globModel ["*.txt/deep/er/file.go"] [⟨["*.txt"], {Trigger := "txt"}⟩]
      = (some [{Trigger := "txt"}], none) := by
  decide

/-- C11 (amended): in the glob matcher `**` spans any number of directory levels,
none included, and a pattern without the segment `**` matches only names with as
many segments as it has, so `*` spans within one segment.  Through `matchPath` and
`StepsToTrigger` a path matches a pattern with `*` iff the glob matcher matches it
or the path starts with the pattern as a literal prefix.  The instances are those
of the tests: `**/*.txt` matches `package/docs/other.txt` and `text.txt`, `*.txt`
matches `text.txt` and not `.gitignore`, `docs/*.txt` matches `docs/text.txt`,
`*/*.txt` matches `package/other.txt`, each yielding the step of the rule. -/
theorem glob_double_star_semantics :
    (∀ (q n : String) (dirs : List (List Char)) (step : Step),
      (∀ d ∈ dirs, '/' ∉ d) → globModel q n = (true, none) →
      matchPath globModel ("**/" ++ q) (String.mk (underDirs dirs n.data)) = (true, none) ∧
      StepsToTrigger globModel [String.mk (underDirs dirs n.data)]
        [⟨["**/" ++ q], step⟩] = (some [step], none)) ∧
    (∀ p n : String, ['*', '*'] ∉ splitOnChar '/' p.data → globModel p n = (true, none) →
      (splitOnChar '/' n.data).length = (splitOnChar '/' p.data).length) ∧
    (∀ p f : String, '*' ∈ p.data → (globModel p f).2 = none →
      (matchPath globModel p f).2 = none ∧
      ((matchPath globModel p f).1 = true ↔
        ((globModel p f).1 = true ∨ p.data <+: f.data))) ∧
    (∀ b : List Char, '/' ∉ b →
      matchPath globModel "*.txt" (String.mk (b ++ ".txt".data)) = (true, none)) ∧
    matchPath globModel "**/*.txt" "package/docs/other.txt" = (true, none) ∧
    matchPath globModel "**/*.txt" "text.txt" = (true, none) ∧
    matchPath globModel "*.txt" "text.txt" = (true, none) ∧
    matchPath globModel "*.txt" ".gitignore" = (false, none) ∧
    matchPath globModel "docs/*.txt" "docs/text.txt" = (true, none) ∧
    matchPath globModel "*/*.txt" "package/other.txt" = (true, none) ∧
    StepsToTrigger globModel ["text.txt", ".gitignore"] [⟨["*.txt"], {Trigger := "txt"}⟩]
      = (some [{Trigger := "txt"}], none) ∧
    StepsToTrigger globModel [".gitignore"] [⟨["*.txt"], {Trigger := "txt"}⟩]
      = (some [], none) ∧
    StepsToTrigger globModel ["docs/text.txt"] [⟨["docs/*.txt"], {Trigger := "txt"}⟩]
      = (some [{Trigger := "txt"}], none) ∧
    StepsToTrigger globModel ["docs/text.txt"] [⟨["**/text.txt"], {Trigger := "txt"}⟩]
      = (some [{Trigger := "txt"}], none) ∧
    StepsToTrigger globModel ["package/other.txt"] [⟨["*/*.txt"], {Trigger := "txt"}⟩]
      = (some [{Trigger := "txt"}], none) ∧
    StepsToTrigger globModel ["package/docs/other.txt"] [⟨["**/*.txt"], {Trigger := "txt"}⟩]
      = (some [{Trigger := "txt"}], none) ∧
    StepsToTrigger globModel ["text.txt"] [⟨["**/*.txt"], {Trigger := "txt"}⟩]
      = (some [{Trigger := "txt"}], none) := by
  refine ⟨fun q n dirs step hd h => ?_, fun p n hp h => ?_,
    fun p f h he => matchPath_glob_iff globModel p f h he, fun b hb => ?_,
    by decide, by decide, by decide, by decide, by decide, by decide,
    by decide, by decide, by decide, by decide, by decide, by decide, by decide⟩
  · have hstar : '*' ∈ ("**/" ++ q).data := by
      rw [String.data_append]
      exact List.mem_append_left _ (by decide)
    have hm := matchPath_of_glob_match globModel ("**/" ++ q) _ hstar
      (globModel_double_star q n dirs hd h)
    exact ⟨hm, StepsToTrigger_single globModel _ _ step hm⟩
  · have hmal : malformed p.data = false := by
      have he := globModel_error p n
      rw [h] at he
      cases hm : malformed p.data
      · rfl
      · simp [hm] at he
    exact matchSegments_length _ _ hp (by simpa [globModel, hmal] using h)
  · exact matchPath_of_glob_match globModel "*.txt" _ (by decide) (globModel_star_txt b hb)

end MonorepoDiff
